import Mathlib

/-!
Verification of the BMR-Analytics engine (Next.js e-commerce analytics
dashboard).  The development shallowly embeds the two core modules:

* `src/lib/analytic.service.ts` — ingestion of raw visit documents into
  typed sessions, and the aggregate pipeline (`computeAnalyticsFromDocs`):
  cart-leak, co-occurrence recommendations, price segmentation, transition
  matrix / flow graph, price bands, daily trends, geo and category
  aggregates.
* `src/components/AnalyticsDashboard.tsx` — the date-range reprojection
  engine (`reprojectForDateRange`) and the largest-remainder apportionment
  helper (`distributeToTotal`).

Modelling conventions, used consistently below:

* JS `number` is modelled as `ℚ` (exact arithmetic; the spec's "within
  floating tolerance" clauses are exact here).  The transcendental
  primitives the code uses (`Math.sqrt`, `Math.log1p`, `Math.expm1`) are
  abstracted as a parameter record `FloatPrims`; theorems quantify over it,
  concrete evaluations instantiate it with an executable stand-in that
  agrees with the real functions on every input actually used.
* JS strings that act as identifiers (item ids, category names, country
  codes, visitor ids, titles) are modelled as natural-number codes, chosen
  so that the numeric order of the codes coincides with the JS
  lexicographic order of the original strings where the code compares them.
* `Date` values are epoch milliseconds (`ℤ`).  The code formats dates as
  `yyyy-MM-dd` keys and compares those keys lexicographically, which agrees
  with chronological order; we model a date key as the UTC day index
  `⌊ms / 86400000⌋` and compare day indices with `≤`.
* `Array.prototype.sort` is a stable sort (ES2019).  It is modelled by
  `List.insertionSort r` where `r a b` holds iff the JS comparator
  `cmp(a,b)` returns `≤ 0`: Mathlib's `insertionSort` inserts the original
  list's earlier elements in front of comparator-equal later elements,
  which is exactly the stable behaviour.
* Exceptions are modelled by `Option`: a function that can throw returns
  `none` on the throwing paths.
* JS `Map` objects (insertion-ordered) are association lists whose update
  keeps the position of an existing key and appends new keys; `Record`
  objects with non-index string keys behave the same way.
-/

set_option allowUnsafeReducibility true
set_option maxRecDepth 100000

attribute [semireducible] Rat.add Rat.mul Rat.inv Rat.div Rat.sub Rat.neg

namespace BMR

/-- String values are modelled as natural-number codes (see the header). -/
abbrev Str := ℕ

/-- Abstracted float library: the three transcendental primitives the
source calls (`Math.sqrt` via d3's `deviation` and the recommendation
score, `Math.log1p` and `Math.expm1` in `robustPriceSplits`). -/
structure FloatPrims where
  sqrt : ℚ → ℚ
  log1p : ℚ → ℚ
  expm1 : ℚ → ℚ

/-- Floor square root by exhaustive search (structural, so concrete
applications evaluate inside the kernel). -/
def natSqrt (n : ℕ) : ℕ :=
  ((List.range (n + 1)).filter fun k => k * k ≤ n).length - 1

/-- Executable stand-in primitives used to evaluate the pipeline at
concrete inputs.  `sqrt` agrees with the real square root on perfect-square
naturals — every input the concrete instances below apply it to; `log1p`
and `expm1` are the identity (a strictly monotone pair with
`expm1 (log1p x) = x`, the only properties of the real pair the evaluated
paths depend on). -/
def ratPrims : FloatPrims where
  sqrt := fun q => (natSqrt q.num.toNat : ℚ)
  log1p := id
  expm1 := id

/-- Embedding of `Math.round`: rounds half-way cases toward `+∞`. -/
def jsRound (q : ℚ) : ℤ := ⌊q + 1/2⌋

/-- Embedding of the dashboard's `clamp(v, min, max)` helper
(`Math.min(Math.max(v, min), max)`). -/
def jsClamp (v lo hi : ℚ) : ℚ := min (max v lo) hi

/-- UTC calendar-day index of an epoch-millisecond timestamp; models taking
the `yyyy-MM-dd` part of an ISO timestamp string. -/
def msDay (ts : ℤ) : ℤ := Int.fdiv ts 86400000

/-- Strict-then-index order on `(index, fractional remainder)` pairs:
descending by remainder, ties by ascending original index.  The JS code
sorts with the comparator `(a, b) => b.frac - a.frac`, which is a stable
descending sort by remainder; on a list whose indices are strictly
increasing, that stable sort coincides with sorting by this total order. -/
def remOrd (a b : ℕ × ℚ) : Prop := b.2 < a.2 ∨ (a.2 = b.2 ∧ a.1 ≤ b.1)

instance : DecidableRel remOrd := fun a b => by
  unfold remOrd; infer_instance

instance : IsTotal (ℕ × ℚ) remOrd := by
  constructor
  intro a b
  rcases lt_trichotomy a.2 b.2 with h | h | h
  · exact Or.inr (Or.inl h)
  · rcases Nat.le_total a.1 b.1 with h1 | h1
    · exact Or.inl (Or.inr ⟨h, h1⟩)
    · exact Or.inr (Or.inr ⟨h.symm, h1⟩)
  · exact Or.inl (Or.inl h)

instance : IsTrans (ℕ × ℚ) remOrd := by
  constructor
  rintro a b c (h1 | ⟨h1, h1'⟩) (h2 | ⟨h2, h2'⟩)
  · exact Or.inl (h2.trans h1)
  · exact Or.inl (lt_of_eq_of_lt h2.symm h1)
  · exact Or.inl (lt_of_lt_of_eq h2 h1.symm)
  · exact Or.inr ⟨h1.trans h2, h1'.trans h2'⟩

/-- One iteration of the distribution loop of `distributeToTotal`:
`out[order[k % order.length].i] += 1`.  When `order` is empty the JS
expression `order[k % 0]` is `undefined` and the member access throws; the
`none` result models that exception. -/
def bumpStep (order : List (ℕ × ℚ)) (acc : Option (List ℤ)) (k : ℕ) :
    Option (List ℤ) :=
  acc.bind fun out =>
    (order.get? (k % order.length)).map fun p =>
      out.set p.1 (out.getD p.1 0 + 1)

/-- The `order` array of `distributeToTotal`:
`raw.map((x, i) => ({ i, frac: x - base[i] })).sort((a, b) => b.frac - a.frac)`.
The JS sort is stable and the indices are strictly increasing, so it equals
the sort by the total order `remOrd`. -/
def remOrder (raw : List ℚ) : List (ℕ × ℚ) :=
  List.insertionSort remOrd (raw.enum.map fun p => (p.1, p.2 - (⌊p.2⌋ : ℚ)))

/-- `const nonneg = weights.map((w) => (w > 0 ? w : 0))`. -/
def dttNonneg (weights : List ℚ) : List ℚ :=
  weights.map fun w => if 0 < w then w else 0

/-- `const sum = nonneg.reduce((a, b) => a + b, 0) || 1`. -/
def dttS (weights : List ℚ) : ℚ :=
  if (dttNonneg weights).sum = 0 then 1 else (dttNonneg weights).sum

/-- `const raw = nonneg.map((w) => (w / sum) * total)`. -/
def dttRaw (total : ℚ) (weights : List ℚ) : List ℚ :=
  (dttNonneg weights).map fun w => w / dttS weights * total

/-- `const base = raw.map((x) => Math.floor(x))`. -/
def dttBase (total : ℚ) (weights : List ℚ) : List ℤ :=
  (dttRaw total weights).map fun x => ⌊x⌋

/-- `let rem = total - base.reduce((a, b) => a + b, 0)`. -/
def dttRem (total : ℚ) (weights : List ℚ) : ℚ :=
  total - (((dttBase total weights).sum : ℤ) : ℚ)

/-- Embedding of the dashboard's `distributeToTotal` (largest-remainder
apportionment); the named stages above are the function's `const`
bindings in source order.  A JS `for (k = 0; k < rem; k += 1)` loop with a
rational bound `rem` runs `max 0 ⌈rem⌉` times. -/
def distributeToTotal (total : ℚ) (weights : List ℚ) : Option (List ℤ) :=
  (List.range (⌈dttRem total weights⌉.toNat)).foldl
    (bumpStep (remOrder (dttRaw total weights)))
    (some (dttBase total weights))

/-- Fractional remainder of entry `i` of a weight vector `ws` against a
target total `T`, as in the spec's largest-remainder description. -/
def fracOf (ws : List ℚ) (T : ℚ) (i : ℕ) : ℚ :=
  ws.getD i 0 / ws.sum * T - (⌊ws.getD i 0 / ws.sum * T⌋ : ℚ)

/-- Abstract form of the distribution loop: add `1` at each index of
`incs`, in order. -/
def applyIncs (out : List ℤ) (incs : List ℕ) : List ℤ :=
  incs.foldl (fun o i => o.set i (o.getD i 0 + 1)) out

lemma applyIncs_cons (out : List ℤ) (i : ℕ) (t : List ℕ) :
    applyIncs out (i :: t) = applyIncs (out.set i (out.getD i 0 + 1)) t := rfl

lemma length_applyIncs (incs : List ℕ) (out : List ℤ) :
    (applyIncs out incs).length = out.length := by
  induction incs generalizing out with
  | nil => rfl
  | cons i t ih => rw [applyIncs_cons, ih, List.length_set]

lemma sum_set_incr (out : List ℤ) (i : ℕ) (h : i < out.length) :
    (out.set i (out.getD i 0 + 1)).sum = out.sum + 1 := by
  induction out generalizing i with
  | nil => simp at h
  | cons a t ih =>
    cases i with
    | zero => simp [List.set, List.getD]; ring
    | succ j =>
      have hj : j < t.length := Nat.lt_of_succ_lt_succ h
      simp only [List.set, List.getD_cons_succ, List.sum_cons, ih j hj]
      ring

lemma getD_set_incr (out : List ℤ) (i j : ℕ) (hi : i < out.length) :
    (out.set i (out.getD i 0 + 1)).getD j 0 =
      out.getD j 0 + (if i = j then 1 else 0) := by
  by_cases hj : j < out.length
  · have hj' : j < (out.set i (out.getD i 0 + 1)).length := by
      rwa [List.length_set]
    rw [List.getD_eq_getElem _ _ hj', List.getD_eq_getElem _ _ hj,
      List.getElem_set]
    split
    · next h => rw [h, ← List.getD_eq_getElem out 0 hj]
    · simp
  · have hj1 : out.length ≤ j := le_of_not_lt hj
    have hij : ¬ i = j := by omega
    rw [List.getD_eq_default _ _ hj1, List.getD_eq_default, if_neg hij]
    · simp
    · rwa [List.length_set]

lemma sum_applyIncs (incs : List ℕ) (out : List ℤ)
    (h : ∀ i ∈ incs, i < out.length) :
    (applyIncs out incs).sum = out.sum + incs.length := by
  induction incs generalizing out with
  | nil => simp [applyIncs]
  | cons i t ih =>
    have hi : i < out.length := h i (by simp)
    rw [applyIncs_cons, ih]
    · rw [sum_set_incr out i hi, List.length_cons]
      push_cast; ring
    · intro x hx
      rw [List.length_set]
      exact h x (by simp [hx])

lemma getD_applyIncs (incs : List ℕ) (out : List ℤ)
    (h : ∀ i ∈ incs, i < out.length) (j : ℕ) :
    (applyIncs out incs).getD j 0 = out.getD j 0 + incs.count j := by
  induction incs generalizing out with
  | nil => simp [applyIncs]
  | cons i t ih =>
    have hi : i < out.length := h i (by simp)
    rw [applyIncs_cons, ih]
    · rw [getD_set_incr out i j hi, List.count_cons]
      have : (i == j) = decide (i = j) := rfl
      simp only [this]
      by_cases hij : i = j <;> simp [hij] <;> push_cast <;> ring
    · intro x hx
      rw [List.length_set]
      exact h x (by simp [hx])

lemma foldl_bumpStep_run (order : List (ℕ × ℚ)) (hord : order ≠ [])
    (base : List ℤ) (m : ℕ) :
    (List.range m).foldl (bumpStep order) (some base) =
      some (applyIncs base
        ((List.range m).map fun k => (order.getD (k % order.length) (0, 0)).1)) := by
  induction m with
  | zero => rfl
  | succ m ih =>
    have hlen : 0 < order.length := List.length_pos.mpr hord
    have hmod : m % order.length < order.length := Nat.mod_lt _ hlen
    rw [List.range_succ, List.foldl_append, ih, List.map_append,
      List.foldl_cons, List.foldl_nil]
    unfold bumpStep
    have hget : order.get? (m % order.length) =
        some (order.get ⟨m % order.length, hmod⟩) := by
      rw [List.get?_eq_getElem?, List.getElem?_eq_getElem hmod]
      rfl
    rw [Option.some_bind, hget, Option.map_some']
    rw [applyIncs, applyIncs, List.foldl_append]
    rw [List.map_singleton, List.foldl_cons, List.foldl_nil,
      List.getD_eq_getElem _ _ hmod]
    rfl

lemma sum_floor_le (l : List ℚ) :
    (((l.map fun x => ⌊x⌋).sum : ℤ) : ℚ) ≤ l.sum := by
  induction l with
  | nil => simp
  | cons x t ih =>
    simp only [List.map_cons, List.sum_cons, Int.cast_add]
    exact add_le_add (Int.floor_le x) ih

lemma sum_le_sum_floor_add (l : List ℚ) :
    l.sum ≤ (((l.map fun x => ⌊x⌋).sum : ℤ) : ℚ) + l.length := by
  induction l with
  | nil => simp
  | cons x t ih =>
    have hx := le_of_lt (Int.lt_floor_add_one x)
    simp only [List.map_cons, List.sum_cons, List.length_cons, Int.cast_add]
    push_cast
    push_cast at ih
    linarith

lemma sum_lt_sum_floor_add (l : List ℚ) (hne : l ≠ []) :
    l.sum < (((l.map fun x => ⌊x⌋).sum : ℤ) : ℚ) + l.length := by
  cases l with
  | nil => exact absurd rfl hne
  | cons x t =>
    have hx := Int.lt_floor_add_one x
    have ht := sum_le_sum_floor_add t
    simp only [List.map_cons, List.sum_cons, List.length_cons, Int.cast_add]
    push_cast
    push_cast at ht
    linarith

lemma map_clampPos_of_nonneg (ws : List ℚ) (h : ∀ w ∈ ws, 0 ≤ w) :
    (ws.map fun w => if 0 < w then w else 0) = ws := by
  rw [List.map_congr_left (g := id) ?_, List.map_id]
  intro w hw
  by_cases h0 : 0 < w
  · simp [h0]
  · have : w = 0 := le_antisymm (le_of_not_lt h0) (h w hw)
    simp [this]

lemma all_zero_of_sum_zero (ws : List ℚ) (h : ∀ w ∈ ws, 0 ≤ w)
    (hs : ws.sum = 0) : ∀ w ∈ ws, w = 0 := by
  induction ws with
  | nil => simp
  | cons x t ih =>
    have hx : 0 ≤ x := h x (by simp)
    have ht : 0 ≤ t.sum := by
      apply List.sum_nonneg
      intro w hw; exact h w (by simp [hw])
    rw [List.sum_cons] at hs
    have hx0 : x = 0 := by linarith
    intro w hw
    rcases List.mem_cons.mp hw with rfl | hw
    · exact hx0
    · exact ih (fun w hw => h w (by simp [hw])) (by linarith) w hw

lemma incs_eq_take_fst (order : List (ℕ × ℚ)) (m : ℕ) (hm : m ≤ order.length) :
    ((List.range m).map fun k => (order.getD (k % order.length) (0, 0)).1) =
      (order.take m).map Prod.fst := by
  apply List.ext_getElem
  · simp [List.length_take, Nat.min_eq_left hm]
  · intro k h1 h2
    have hk : k < m := by simpa using h1
    have hklen : k < order.length := lt_of_lt_of_le hk hm
    simp only [List.getElem_map, List.getElem_range, List.getElem_take,
      Nat.mod_eq_of_lt hklen, List.getD_eq_getElem _ _ hklen]

lemma incs_all_lt (order : List (ℕ × ℚ)) (n m : ℕ)
    (hne : order ≠ []) (hfst : ∀ p ∈ order, p.1 < n) :
    ∀ i ∈ (List.range m).map fun k => (order.getD (k % order.length) (0, 0)).1,
      i < n := by
  intro i hi
  rcases List.mem_map.mp hi with ⟨k, _, rfl⟩
  have hlen : 0 < order.length := List.length_pos.mpr hne
  have hmod : k % order.length < order.length := Nat.mod_lt _ hlen
  rw [List.getD_eq_getElem _ _ hmod]
  exact hfst _ (List.getElem_mem hmod)

lemma length_remOrder (raw : List ℚ) : (remOrder raw).length = raw.length := by
  rw [remOrder, List.length_insertionSort, List.length_map, List.enum_length]

lemma remOrder_perm (raw : List ℚ) :
    (remOrder raw).Perm (raw.enum.map fun p => (p.1, p.2 - (⌊p.2⌋ : ℚ))) :=
  List.perm_insertionSort _ _

lemma mem_remOrder (raw : List ℚ) (p : ℕ × ℚ) (hp : p ∈ remOrder raw) :
    p.1 < raw.length ∧
      p.2 = raw.getD p.1 0 - (⌊raw.getD p.1 0⌋ : ℚ) := by
  have hp' := (remOrder_perm raw).mem_iff.mp hp
  rcases List.mem_map.mp hp' with ⟨q, hq, rfl⟩
  have : q.1 < raw.length ∧ raw[q.1]? = some q.2 := by
    have := List.mk_mem_enum_iff_getElem?.mp (show (q.1, q.2) ∈ raw.enum from hq)
    rcases List.getElem?_eq_some_iff.mp this with ⟨h1, h2⟩
    exact ⟨h1, this⟩
  rcases this with ⟨h1, h2⟩
  have hget : raw.getD q.1 0 = q.2 := by
    rw [List.getD_eq_getElem _ _ h1]
    rcases List.getElem?_eq_some_iff.mp h2 with ⟨_, h3⟩
    exact h3
  exact ⟨h1, by rw [hget]⟩

lemma mem_remOrder_of_lt (raw : List ℚ) (j : ℕ) (hj : j < raw.length) :
    (j, raw.getD j 0 - (⌊raw.getD j 0⌋ : ℚ)) ∈ remOrder raw := by
  apply (remOrder_perm raw).mem_iff.mpr
  apply List.mem_map.mpr
  refine ⟨(j, raw[j]), ?_, ?_⟩
  · exact List.mk_mem_enum_iff_getElem?.mpr (List.getElem?_eq_getElem hj)
  · rw [List.getD_eq_getElem _ _ hj]

lemma nodup_remOrder_fst (raw : List ℚ) :
    ((remOrder raw).map Prod.fst).Nodup := by
  have hperm : ((remOrder raw).map Prod.fst).Perm (List.range raw.length) := by
    have h1 := (remOrder_perm raw).map Prod.fst
    rw [List.map_map] at h1
    have h2 : (raw.enum.map (Prod.fst ∘ fun p => (p.1, p.2 - (⌊p.2⌋ : ℚ)))) =
        raw.enum.map Prod.fst := by
      apply List.map_congr_left
      intro a _; rfl
    rw [h2, List.enum_map_fst] at h1
    exact h1
  exact hperm.nodup_iff.mpr (List.nodup_range _)

lemma pairwise_remOrder (raw : List ℚ) : (remOrder raw).Pairwise remOrd :=
  List.sorted_insertionSort remOrd _

/-- Index sequence touched by the distribution loop. -/
def dttIncs (total : ℚ) (ws : List ℚ) : List ℕ :=
  (List.range (⌈dttRem total ws⌉.toNat)).map fun k =>
    ((remOrder (dttRaw total ws)).getD
      (k % (remOrder (dttRaw total ws)).length) (0, 0)).1

lemma length_dttRaw (total : ℚ) (ws : List ℚ) :
    (dttRaw total ws).length = ws.length := by
  rw [dttRaw, List.length_map, dttNonneg, List.length_map]

lemma length_dttBase (total : ℚ) (ws : List ℚ) :
    (dttBase total ws).length = ws.length := by
  rw [dttBase, List.length_map, length_dttRaw]

lemma dtt_run (total : ℚ) (ws : List ℚ) (hne : ws ≠ []) :
    distributeToTotal total ws =
      some (applyIncs (dttBase total ws) (dttIncs total ws)) := by
  have hne' : remOrder (dttRaw total ws) ≠ [] := by
    rw [← List.length_pos, length_remOrder, length_dttRaw]
    exact List.length_pos.mpr hne
  exact foldl_bumpStep_run _ hne' _ _

lemma dttNonneg_entries (ws : List ℚ) : ∀ x ∈ dttNonneg ws, 0 ≤ x := by
  intro x hx
  rcases List.mem_map.mp hx with ⟨w, _, rfl⟩
  by_cases h : 0 < w
  · simp [h]; exact le_of_lt h
  · simp [h]

lemma dttNonneg_eq (ws : List ℚ) (hnn : ∀ w ∈ ws, 0 ≤ w) :
    dttNonneg ws = ws := map_clampPos_of_nonneg ws hnn

lemma dttS_pos (ws : List ℚ) : 0 < dttS ws := by
  rw [dttS]
  split
  · exact one_pos
  · next h =>
    rcases lt_or_eq_of_le (List.sum_nonneg (dttNonneg_entries ws)) with h' | h'
    · exact h'
    · exact absurd h'.symm h

lemma dttRaw_entries (total : ℚ) (ws : List ℚ) (htot : 0 ≤ total) :
    ∀ x ∈ dttRaw total ws, 0 ≤ x := by
  intro x hx
  rcases List.mem_map.mp hx with ⟨w, hw, rfl⟩
  exact mul_nonneg (div_nonneg (dttNonneg_entries ws w hw) (le_of_lt (dttS_pos ws))) htot

lemma dttRaw_sum (total : ℚ) (ws : List ℚ)
    (hz : (dttNonneg ws).sum ≠ 0) : (dttRaw total ws).sum = total := by
  have hs : dttS ws = (dttNonneg ws).sum := by rw [dttS, if_neg hz]
  rw [dttRaw, List.map_congr_left
    (g := fun w => w * (total / dttS ws)) (by intro a _; rw [div_mul_eq_mul_div, mul_div_assoc])]
  rw [List.sum_map_mul_right, List.map_id', hs, mul_comm]
  exact div_mul_cancel₀ total hz

lemma dttRaw_zero (total : ℚ) (ws : List ℚ)
    (hz : (dttNonneg ws).sum = 0) : ∀ x ∈ dttRaw total ws, x = 0 := by
  intro x hx
  rcases List.mem_map.mp hx with ⟨w, hw, rfl⟩
  have : w = 0 := all_zero_of_sum_zero _ (dttNonneg_entries ws) hz w hw
  rw [this, zero_div, zero_mul]

lemma dttBase_sum_le (total : ℚ) (ws : List ℚ) (htot : 0 ≤ total) :
    (((dttBase total ws).sum : ℤ) : ℚ) ≤ total := by
  by_cases hz : (dttNonneg ws).sum = 0
  · have : (dttBase total ws).sum = 0 := by
      apply List.sum_eq_zero
      intro x hx
      rcases List.mem_map.mp hx with ⟨r, hr, rfl⟩
      rw [dttRaw_zero total ws hz r hr]
      exact Int.floor_zero
    rw [this]; exact_mod_cast htot
  · calc (((dttBase total ws).sum : ℤ) : ℚ) ≤ (dttRaw total ws).sum :=
          sum_floor_le _
      _ = total := dttRaw_sum total ws hz

lemma dtt_facts (total : ℚ) (ws : List ℚ) (hne : ws ≠ [])
    (htot : 0 ≤ total) :
    ∃ out, distributeToTotal total ws = some out ∧
      out.length = ws.length ∧
      (∀ x ∈ out, 0 ≤ x) ∧
      out.sum = (dttBase total ws).sum + (⌈dttRem total ws⌉.toNat : ℤ) := by
  refine ⟨applyIncs (dttBase total ws) (dttIncs total ws),
    dtt_run total ws hne, ?_, ?_, ?_⟩
  · rw [length_applyIncs, length_dttBase]
  all_goals {
    have hne' : remOrder (dttRaw total ws) ≠ [] := by
      rw [← List.length_pos, length_remOrder, length_dttRaw]
      exact List.length_pos.mpr hne
    have hfst : ∀ p ∈ remOrder (dttRaw total ws), p.1 < (dttBase total ws).length := by
      intro p hp
      rw [length_dttBase, ← length_dttRaw total ws]
      exact (mem_remOrder _ p hp).1
    have hbnd : ∀ i ∈ dttIncs total ws, i < (dttBase total ws).length :=
      incs_all_lt _ _ _ hne' hfst
    first
    | · rw [sum_applyIncs _ _ hbnd, dttIncs, List.length_map, List.length_range]
    | · intro x hx
        rcases List.mem_iff_getElem.mp hx with ⟨j, hj, rfl⟩
        have hj' : j < (dttBase total ws).length := by
          rwa [length_applyIncs] at hj
        rw [← List.getD_eq_getElem _ 0 hj, getD_applyIncs _ _ hbnd]
        have h1 : 0 ≤ (dttBase total ws).getD j 0 := by
          by_cases hjb : j < (dttBase total ws).length
          · rw [List.getD_eq_getElem _ _ hjb]
            have : (dttBase total ws)[j] ∈ dttBase total ws := List.getElem_mem hjb
            rcases List.mem_map.mp this with ⟨r, hr, heq⟩
            rw [← heq]
            exact Int.floor_nonneg.mpr (dttRaw_entries total ws htot r hr)
          · rw [List.getD_eq_default _ _ (le_of_not_lt hjb)]
        positivity
  }

lemma dtt_ceil_rem (total : ℤ) (ws : List ℚ) :
    ⌈dttRem (total : ℚ) ws⌉ = total - (dttBase (total : ℚ) ws).sum := by
  rw [dttRem]
  have h : ((total : ℤ) : ℚ) - (((dttBase (total : ℚ) ws).sum : ℤ) : ℚ) =
      ((total - (dttBase (total : ℚ) ws).sum : ℤ) : ℚ) := by push_cast; ring
  rw [h, Int.ceil_intCast]

/-- Helper: the sum of the result of `distributeToTotal` at an integer
target `total ≥ 0` over a non-empty weight vector is exactly `total`. -/
lemma dtt_sum_int (total : ℤ) (ws : List ℚ) (hne : ws ≠ [])
    (htot : 0 ≤ total) :
    ∃ out, distributeToTotal (total : ℚ) ws = some out ∧
      out.length = ws.length ∧ (∀ x ∈ out, 0 ≤ x) ∧ out.sum = total := by
  have htot' : (0 : ℚ) ≤ (total : ℚ) := by exact_mod_cast htot
  obtain ⟨out, hout, hlen, hpos, hsum⟩ := dtt_facts (total : ℚ) ws hne htot'
  have hFle : (dttBase (total : ℚ) ws).sum ≤ total := by
    exact_mod_cast dttBase_sum_le (total : ℚ) ws htot'
  refine ⟨out, hout, hlen, hpos, ?_⟩
  rw [hsum, dtt_ceil_rem, Int.toNat_of_nonneg (by omega)]
  omega

/-- C1 (amended): for every integer target `T ≥ 0` and every NON-EMPTY
vector of non-negative weights, `distributeToTotal` returns (without
throwing) a same-length vector of non-negative integers summing exactly to
`T`; and whenever the weights have non-zero sum there is a set `sel` of
exactly `T - Σ⌊(wᵢ/Σw)·T⌋` positions such that each entry is
`⌊(wᵢ/Σw)·T⌋` plus one exactly on `sel`, and every selected position beats
every unselected one either by a strictly larger fractional remainder or,
on ties, by a smaller original index.  The claim as stated fails only for
the empty weight vector (the call throws) and for the all-zero-sum case
(where its proportional-share formula divides by zero and the extra units
wrap around round-robin); see the counterexample. -/
theorem claim_C1_apportionment (T : ℕ) (ws : List ℚ) (hne : ws ≠ [])
    (hnn : ∀ w ∈ ws, 0 ≤ w) :
    ∃ out, distributeToTotal (T : ℚ) ws = some out ∧
      out.length = ws.length ∧
      (∀ x ∈ out, 0 ≤ x) ∧
      out.sum = (T : ℤ) ∧
      (ws.sum ≠ 0 → ∃ sel : List ℕ,
        sel.Nodup ∧ (∀ i ∈ sel, i < ws.length) ∧
        ((sel.length : ℤ) =
          (T : ℤ) - (ws.map fun w => ⌊w / ws.sum * (T : ℚ)⌋).sum) ∧
        (∀ i, i < ws.length →
          out.getD i 0 = ⌊ws.getD i 0 / ws.sum * (T : ℚ)⌋ +
            (if i ∈ sel then 1 else 0)) ∧
        (∀ i ∈ sel, ∀ j, j < ws.length → j ∉ sel →
          fracOf ws (T : ℚ) j < fracOf ws (T : ℚ) i ∨
            (fracOf ws (T : ℚ) j = fracOf ws (T : ℚ) i ∧ i < j))) := by
  classical
  have htotZ : (0 : ℤ) ≤ (T : ℤ) := by positivity
  have hTQ : ((T : ℤ) : ℚ) = (T : ℚ) := by push_cast; rfl
  obtain ⟨out, hout, hlen, hpos, hsum⟩ := dtt_sum_int (T : ℤ) ws hne htotZ
  rw [hTQ] at hout
  refine ⟨out, hout, hlen, hpos, hsum, ?_⟩
  intro hws
  -- notation for the stages of the computation
  have hclamp : dttNonneg ws = ws := dttNonneg_eq ws hnn
  have hz : (dttNonneg ws).sum ≠ 0 := by rwa [hclamp]
  have hS : dttS ws = ws.sum := by rw [dttS, hclamp, if_neg hws]
  have hrawdef : dttRaw (T : ℚ) ws = ws.map fun w => w / ws.sum * (T : ℚ) := by
    rw [dttRaw, hclamp, hS]
  have hlenraw : (dttRaw (T : ℚ) ws).length = ws.length := length_dttRaw _ _
  have hlenbase : (dttBase (T : ℚ) ws).length = ws.length := length_dttBase _ _
  have hnpos : 0 < ws.length := List.length_pos.mpr hne
  have horder_len : (remOrder (dttRaw (T : ℚ) ws)).length = ws.length := by
    rw [length_remOrder, hlenraw]
  have hne' : remOrder (dttRaw (T : ℚ) ws) ≠ [] := by
    rw [← List.length_pos, horder_len]; exact hnpos
  have hbase_eq : dttBase (T : ℚ) ws = ws.map fun w => ⌊w / ws.sum * (T : ℚ)⌋ := by
    rw [dttBase, hrawdef, List.map_map]; rfl
  -- the extra-unit count
  have htot' : (0 : ℚ) ≤ (T : ℚ) := by positivity
  have hFle : (dttBase (T : ℚ) ws).sum ≤ (T : ℤ) := by
    have := dttBase_sum_le (T : ℚ) ws htot'
    rw [← hTQ] at this
    exact_mod_cast this
  have hTlt : (T : ℤ) < (dttBase (T : ℚ) ws).sum + ws.length := by
    have h1 := sum_lt_sum_floor_add (dttRaw (T : ℚ) ws)
      (by rw [← List.length_pos, hlenraw]; exact hnpos)
    rw [dttRaw_sum _ _ hz] at h1
    have h2 : ((dttRaw (T : ℚ) ws).map fun x => ⌊x⌋) = dttBase (T : ℚ) ws := rfl
    rw [h2, hlenraw] at h1
    rw [← hTQ] at h1
    exact_mod_cast h1
  have hceil : ⌈dttRem (T : ℚ) ws⌉ = (T : ℤ) - (dttBase (T : ℚ) ws).sum := by
    rw [← hTQ]; exact dtt_ceil_rem (T : ℤ) ws
  have hremN : ⌈dttRem (T : ℚ) ws⌉.toNat < ws.length := by omega
  have hremNle : ⌈dttRem (T : ℚ) ws⌉.toNat ≤ (remOrder (dttRaw (T : ℚ) ws)).length := by
    rw [horder_len]; omega
  -- the loop touches exactly the first `remN` sorted positions
  have hincseq : dttIncs (T : ℚ) ws =
      ((remOrder (dttRaw (T : ℚ) ws)).take ⌈dttRem (T : ℚ) ws⌉.toNat).map Prod.fst := by
    rw [dttIncs]
    exact incs_eq_take_fst _ _ hremNle
  refine ⟨((remOrder (dttRaw (T : ℚ) ws)).take ⌈dttRem (T : ℚ) ws⌉.toNat).map Prod.fst,
    ?_, ?_, ?_, ?_, ?_⟩
  · exact List.Nodup.sublist ((List.take_sublist _ _).map _) (nodup_remOrder_fst _)
  · intro i hi
    rcases List.mem_map.mp hi with ⟨p, hp, rfl⟩
    have hp' : p ∈ remOrder (dttRaw (T : ℚ) ws) := (List.take_sublist _ _).mem hp
    have := (mem_remOrder _ p hp').1
    rwa [hlenraw] at this
  · rw [List.length_map, List.length_take, horder_len,
      Nat.min_eq_left (by omega), Int.toNat_of_nonneg (by omega), hceil,
      hbase_eq]
  · intro i hi
    have hout_eq : out = applyIncs (dttBase (T : ℚ) ws) (dttIncs (T : ℚ) ws) := by
      have h := hout.symm.trans (dtt_run (T : ℚ) ws hne)
      exact Option.some.inj h
    have hfst : ∀ p ∈ remOrder (dttRaw (T : ℚ) ws), p.1 < (dttBase (T : ℚ) ws).length := by
      intro p hp
      rw [hlenbase, ← hlenraw]
      exact (mem_remOrder _ p hp).1
    have hbnd : ∀ x ∈ dttIncs (T : ℚ) ws, x < (dttBase (T : ℚ) ws).length :=
      incs_all_lt _ _ _ hne' hfst
    rw [hout_eq, getD_applyIncs _ _ hbnd, hincseq]
    have hbd : (dttBase (T : ℚ) ws).getD i 0 = ⌊ws.getD i 0 / ws.sum * (T : ℚ)⌋ := by
      rw [hbase_eq,
        List.getD_eq_getElem _ _ (by rw [List.length_map]; exact hi),
        List.getElem_map, List.getD_eq_getElem _ _ hi]
    rw [hbd]
    congr 1
    by_cases hmem : i ∈ ((remOrder (dttRaw (T : ℚ) ws)).take ⌈dttRem (T : ℚ) ws⌉.toNat).map Prod.fst
    · rw [if_pos hmem]
      have := List.count_eq_one_of_mem
        (List.Nodup.sublist ((List.take_sublist _ _).map _) (nodup_remOrder_fst _)) hmem
      exact_mod_cast this
    · rw [if_neg hmem]
      have := List.count_eq_zero.mpr hmem
      exact_mod_cast this
  · intro i hi j hjlt hjnot
    rcases List.mem_map.mp hi with ⟨pi, hpi_take, hpi1⟩
    have hpi_ord : pi ∈ remOrder (dttRaw (T : ℚ) ws) := (List.take_sublist _ _).mem hpi_take
    have hpi2 := (mem_remOrder _ pi hpi_ord).2
    have hjraw : j < (dttRaw (T : ℚ) ws).length := by rw [hlenraw]; exact hjlt
    have hpj_ord : (j, (dttRaw (T : ℚ) ws).getD j 0 -
        (⌊(dttRaw (T : ℚ) ws).getD j 0⌋ : ℚ)) ∈ remOrder (dttRaw (T : ℚ) ws) :=
      mem_remOrder_of_lt _ _ hjraw
    have hpj_not_take : (j, (dttRaw (T : ℚ) ws).getD j 0 -
        (⌊(dttRaw (T : ℚ) ws).getD j 0⌋ : ℚ)) ∉
          (remOrder (dttRaw (T : ℚ) ws)).take ⌈dttRem (T : ℚ) ws⌉.toNat := by
      intro hmem
      exact hjnot (List.mem_map_of_mem Prod.fst hmem)
    have hpj_drop : (j, (dttRaw (T : ℚ) ws).getD j 0 -
        (⌊(dttRaw (T : ℚ) ws).getD j 0⌋ : ℚ)) ∈
          (remOrder (dttRaw (T : ℚ) ws)).drop ⌈dttRem (T : ℚ) ws⌉.toNat := by
      have hmem : (j, (dttRaw (T : ℚ) ws).getD j 0 -
          (⌊(dttRaw (T : ℚ) ws).getD j 0⌋ : ℚ)) ∈
            (remOrder (dttRaw (T : ℚ) ws)).take ⌈dttRem (T : ℚ) ws⌉.toNat ++
              (remOrder (dttRaw (T : ℚ) ws)).drop ⌈dttRem (T : ℚ) ws⌉.toNat := by
        rw [List.take_append_drop]; exact hpj_ord
      rcases List.mem_append.mp hmem with h | h
      · exact absurd h hpj_not_take
      · exact h
    have hpw2 : List.Pairwise remOrd
        ((remOrder (dttRaw (T : ℚ) ws)).take ⌈dttRem (T : ℚ) ws⌉.toNat ++
          (remOrder (dttRaw (T : ℚ) ws)).drop ⌈dttRem (T : ℚ) ws⌉.toNat) := by
      rw [List.take_append_drop]; exact pairwise_remOrder _
    have hdom := (List.pairwise_append.mp hpw2).2.2 pi hpi_take _ hpj_drop
    have hfrac : ∀ k, k < ws.length →
        (dttRaw (T : ℚ) ws).getD k 0 - (⌊(dttRaw (T : ℚ) ws).getD k 0⌋ : ℚ) =
          fracOf ws (T : ℚ) k := by
      intro k hk
      have hk1 : k < (dttRaw (T : ℚ) ws).length := by rw [hlenraw]; exact hk
      have hval : (dttRaw (T : ℚ) ws).getD k 0 = ws.getD k 0 / ws.sum * (T : ℚ) := by
        rw [hrawdef,
          List.getD_eq_getElem _ _ (by rw [List.length_map]; exact hk),
          List.getElem_map, List.getD_eq_getElem _ _ hk]
      rw [hval, fracOf]
    have hine : pi.1 ≠ j := by
      intro h
      apply hjnot
      rw [← h]
      rw [hpi1]
      exact hi
    have hilt : pi.1 < ws.length := by
      have := (mem_remOrder _ pi hpi_ord).1
      rwa [hlenraw] at this
    have hdom' : ((dttRaw (T : ℚ) ws).getD j 0 -
          (⌊(dttRaw (T : ℚ) ws).getD j 0⌋ : ℚ)) < pi.2 ∨
        (pi.2 = (dttRaw (T : ℚ) ws).getD j 0 -
          (⌊(dttRaw (T : ℚ) ws).getD j 0⌋ : ℚ) ∧ pi.1 ≤ j) := hdom
    rw [hpi2] at hdom'
    rcases hdom' with hlt | ⟨heq, hle⟩
    · left
      rw [← hpi1, ← hfrac j hjlt, ← hfrac pi.1 hilt]
      exact hlt
    · right
      constructor
      · rw [← hpi1, ← hfrac j hjlt, ← hfrac pi.1 hilt]
        exact heq.symm
      · rw [← hpi1]
        exact lt_of_le_of_ne hle hine

/-- C1 counterexample: the claim quantifies over EVERY vector of
non-negative weights, but on the empty vector with target `1` the code
throws a `TypeError` (`order[NaN].i` — modelled as `none`) instead of
returning a vector summing to `1`; and on the all-zero vector `[0, 0]` with
target `5` the first entry receives `3` units, while the claim's
description (`floor((wᵢ/Σw)·T)` plus at most one largest-remainder unit)
allows at most `⌊0/0·5⌋ + 1 = 1`. -/
theorem claim_C1_counterexample :
    distributeToTotal 1 [] = none ∧
      distributeToTotal 5 [0, 0] = some [3, 2] ∧
      ¬ ((3 : ℤ) ≤ ⌊(0 : ℚ) / (([0, 0] : List ℚ).sum) * 5⌋ + 1) := by
  refine ⟨by decide, by decide, by decide⟩

/-- Witness for the amended C1 at the spec's own worked example
(`weights = [3,3,3]`, `T = 10`): the hypotheses hold and the result sums
to exactly `10`. -/
theorem claim_C1_witness :
    (([3, 3, 3] : List ℚ) ≠ [] ∧ ∀ w ∈ ([3, 3, 3] : List ℚ), 0 ≤ w) ∧
      ∃ out, distributeToTotal ((10 : ℕ) : ℚ) [3, 3, 3] = some out ∧
        out.sum = 10 := by
  refine ⟨⟨by decide, by decide⟩, ?_⟩
  obtain ⟨out, h1, _, _, h4, _⟩ :=
    claim_C1_apportionment 10 [3, 3, 3] (by decide) (by decide)
  exact ⟨out, h1, by exact_mod_cast h4⟩

/-! ## The aggregate bundle (`AnalyticsResponse`) -/

/-- The five fixed event-type states of the transition model. -/
inductive EType where
  | cart_add
  | cart_remove
  | view
  | wishlist_add
  | wishlist_remove
deriving DecidableEq

/-- The fixed state list `["cart_add","cart_remove","view","wishlist_add","wishlist_remove"]`. -/
def fiveStates : List EType :=
  [.cart_add, .cart_remove, .view, .wishlist_add, .wishlist_remove]

/-- A serialized session of the response bundle (`sessions` entries). -/
structure SessionOut where
  sessionId : Str
  visitorId : Str
  country : Str
  ts : ℤ
  nView : ℚ
  nCartAdd : ℚ
  nCartRemove : ℚ
deriving DecidableEq

structure LeakItem where
  item : Str
  adds : ℚ
  removes : ℚ
  leak : ℚ
deriving DecidableEq

structure LeakOut where
  overall : ℚ
  items : List LeakItem
deriving DecidableEq

structure FreqBundle where
  items : Str × Str
  support : ℚ
deriving DecidableEq

inductive PriceTier where
  | Low
  | Mid
  | High
  | All
deriving DecidableEq

structure TierStats where
  pViewToCart : ℚ
  pCartToCheckout : ℚ
deriving DecidableEq

/-- `Record<PriceTier, {pViewToCart, pCartToCheckout}>`. -/
structure PriceMarkov where
  Low : TierStats
  Mid : TierStats
  High : TierStats
  All : TierStats
deriving DecidableEq

structure PriceMarkovMeta where
  tLow : Option ℚ
  tHigh : Option ℚ
  min : ℚ
  max : ℚ
deriving DecidableEq

structure Band where
  name : PriceTier
  min : ℚ
  max : ℚ
  viewToCart : ℚ
  wishToCart : ℚ
  nView : ℚ
  nWish : ℚ
deriving DecidableEq

structure PriceBands where
  bands : List Band
deriving DecidableEq

structure PriceRangeData where
  viewFromPrices : List ℚ
  viewToCartFromPrices : List ℚ
  cartAddPrices : List ℚ
  cartRemovePrices : List ℚ
deriving DecidableEq

structure CatRow where
  category : Str
  views : ℚ
  carts : ℚ
  wish : ℚ
  total : ℚ
deriving DecidableEq

structure Transitions where
  states : List EType
  counts : List (List ℚ)
  probs : List (List ℚ)
deriving DecidableEq

structure SankeyLink where
  source : ℕ
  target : ℕ
  value : ℚ
deriving DecidableEq

structure Sankey where
  nodes : List EType
  links : List SankeyLink
deriving DecidableEq

structure DailyRow where
  date : ℤ
  views : ℚ
  carts : ℚ
deriving DecidableEq

structure Anomaly where
  hasThresholds : Bool
  lower : ℚ
  upper : ℚ
  outliers : List ℤ
deriving DecidableEq

structure Daily where
  series : List DailyRow
  anomaly : Anomaly
deriving DecidableEq

structure GeoRow where
  country : Str
  conversionRate : ℚ
deriving DecidableEq

structure ItemMetaEntry where
  title : Str
  price : ℚ
  category : Str
  brand : Str
deriving DecidableEq

/-- The engine's output bundle (`AnalyticsResponse` in
`src/lib/analytic.service.ts`).  The `__version` field is called `version`
here. -/
structure AnalyticsResponse where
  sessions : List SessionOut
  leak : LeakOut
  recos : List (Str × List (Str × ℚ))
  frequentBundles : List FreqBundle
  priceMarkov : PriceMarkov
  priceMarkovMeta : PriceMarkovMeta
  priceBands : PriceBands
  priceRangeData : PriceRangeData
  categoryInteractions : List CatRow
  transitions : Transitions
  sankey : Sankey
  daily : Daily
  geoInsights : List GeoRow
  itemMeta : List (Str × ItemMetaEntry)
  version : Str
deriving DecidableEq

/-! ## The reprojection engine (`reprojectForDateRange`) -/

/-- Row normalization shared by the pipeline and the reprojection:
`sum ? row.map(v => v / sum) : row.map(() => 0)`. -/
def normalizeRow (row : List ℚ) : List ℚ :=
  if row.sum = 0 then row.map fun _ => 0 else row.map fun v => v / row.sum

/-- The session filter of `reprojectForDateRange`:
`s.ts.split("T")[0] >= fromDate && ... <= toDate` (day-level comparison). -/
def sessionInRange (fromD toD : ℤ) (s : SessionOut) : Bool :=
  decide (fromD ≤ msDay s.ts ∧ msDay s.ts ≤ toD)

/-- Flow-graph links rebuilt from a count matrix, dropping self-loops
(`if (v > 0 && i !== j)`), as in the reprojection. -/
def sankeyLinksNoSelf (cm : List (List ℚ)) : List SankeyLink :=
  cm.enum.flatMap fun ir =>
    ir.2.enum.filterMap fun jv =>
      if 0 < jv.2 ∧ ir.1 ≠ jv.1 then some ⟨ir.1, jv.1, jv.2⟩ else none

/-- Flow-graph links as built by the full pipeline (`value > 0`,
self-loops included). -/
def sankeyLinksAll (cm : List (List ℚ)) : List SankeyLink :=
  cm.enum.flatMap fun ir =>
    ir.2.enum.filterMap fun jv =>
      if 0 < jv.2 then some ⟨ir.1, jv.1, jv.2⟩ else none

/-- Leak-row order: `(a, b) => b.leak - a.leak || b.removes - a.removes`
(descending leak, ties by descending removes, further ties stable). -/
def leakGe (a b : LeakItem) : Prop :=
  b.leak < a.leak ∨ (a.leak = b.leak ∧ b.removes ≤ a.removes)

instance : DecidableRel leakGe := fun a b => by
  unfold leakGe; infer_instance

/-- Category order: `(a, b) => b.total - a.total`. -/
def catGe (a b : CatRow) : Prop := b.total ≤ a.total

instance : DecidableRel catGe := fun a b => by
  unfold catGe; infer_instance

/-- The `Math.round(arr.length * ratio)`-element truncation of the price
sample arrays (`arr.slice(0, ...)`). -/
def scaleArray (scaleFactor : ℚ) (arr : List ℚ) : List ℚ :=
  arr.take (jsRound ((arr.length : ℚ) * scaleFactor)).toNat

/-- `const sessions = data.sessions.filter(...)` of the reprojection. -/
def rpFiltered (data : AnalyticsResponse) (fromD toD : ℤ) : List SessionOut :=
  data.sessions.filter (sessionInRange fromD toD)

/-- `const ratio = clamp(sessions.length / data.sessions.length, 0, 1)`
(`ratio` is named `rpScale` here). -/
def rpScale (data : AnalyticsResponse) (fromD toD : ℤ) : ℚ :=
  jsClamp (((rpFiltered data fromD toD).length : ℚ) /
    (data.sessions.length : ℚ)) 0 1

/-- `const totalAdds = sessions.reduce((a, s) => a + s.nCartAdd, 0)`. -/
def rpTotalAdds (data : AnalyticsResponse) (fromD toD : ℤ) : ℚ :=
  ((rpFiltered data fromD toD).map SessionOut.nCartAdd).sum

/-- `const totalRemoves = sessions.reduce((a, s) => a + s.nCartRemove, 0)`. -/
def rpTotalRemoves (data : AnalyticsResponse) (fromD toD : ℤ) : ℚ :=
  ((rpFiltered data fromD toD).map SessionOut.nCartRemove).sum

/-- The successful branch of `reprojectForDateRange`, given the three
apportionment results (`addsAlloc`, `remsAlloc`, `cartsAlloc`); all other
`const` bindings of the source body appear as `let`s in source order. -/
def reprojectWith (data : AnalyticsResponse) (fromD toD : ℤ)
    (addsAlloc remsAlloc cartsAlloc : List ℤ) : AnalyticsResponse :=
  let sessions := rpFiltered data fromD toD
  let scaleFactor := rpScale data fromD toD
  let daily := { data.daily with
    series := data.daily.series.filter fun r =>
      decide (fromD ≤ r.date ∧ r.date ≤ toD) }
  let totalAdds := rpTotalAdds data fromD toD
  let totalRemoves := rpTotalRemoves data fromD toD
  let scaledCounts := data.transitions.counts.map fun row =>
    row.map fun c => ((jsRound (c * scaleFactor) : ℤ) : ℚ)
  let probs := scaledCounts.map normalizeRow
  let links := sankeyLinksNoSelf scaledCounts
  let transitions : Transitions := ⟨data.transitions.states, scaledCounts, probs⟩
  let sankey : Sankey := ⟨data.sankey.nodes, links⟩
  let leakItems := List.insertionSort leakGe
    (data.leak.items.enum.map fun ir =>
      let adds := ((addsAlloc.getD ir.1 0 : ℤ) : ℚ)
      let removes := ((remsAlloc.getD ir.1 0 : ℤ) : ℚ)
      ({ item := ir.2.item
         adds := adds
         removes := removes
         leak := if 0 < adds then removes / adds else 0 } : LeakItem))
  let leak : LeakOut :=
    ⟨if 0 < totalAdds then totalRemoves / totalAdds else 0, leakItems⟩
  let catViews := data.categoryInteractions.map CatRow.views
  let catWish := data.categoryInteractions.map CatRow.wish
  let categoryInteractions := List.insertionSort catGe
    (data.categoryInteractions.enum.map fun ic =>
      let views := ((jsRound (catViews.getD ic.1 0 * scaleFactor) : ℤ) : ℚ)
      let wish := ((jsRound (catWish.getD ic.1 0 * scaleFactor) : ℤ) : ℚ)
      let carts := ((cartsAlloc.getD ic.1 0 : ℤ) : ℚ)
      { ic.2 with
        views := views
        wish := wish
        carts := carts
        total := views + wish + carts })
  let priceRangeData : PriceRangeData :=
    ⟨scaleArray scaleFactor data.priceRangeData.viewFromPrices,
     scaleArray scaleFactor data.priceRangeData.viewToCartFromPrices,
     scaleArray scaleFactor data.priceRangeData.cartAddPrices,
     scaleArray scaleFactor data.priceRangeData.cartRemovePrices⟩
  let priceBands : PriceBands :=
    ⟨data.priceBands.bands.map fun b =>
      { b with
        nView := ((jsRound (b.nView * scaleFactor) : ℤ) : ℚ)
        nWish := ((jsRound (b.nWish * scaleFactor) : ℤ) : ℚ) }⟩
  let frequentBundles := data.frequentBundles.map fun b =>
    { b with support := b.support * scaleFactor }
  { data with
    sessions := sessions
    daily := daily
    leak := leak
    categoryInteractions := categoryInteractions
    priceRangeData := priceRangeData
    priceBands := priceBands
    transitions := transitions
    sankey := sankey
    recos := data.recos
    frequentBundles := frequentBundles }

/-- Embedding of the dashboard's `reprojectForDateRange`.  The `none`
result models the `TypeError` that `distributeToTotal` throws on an empty
weight array with a positive target (reachable only for bundles whose
leak or category tables are empty while the filtered sessions still count
cart events); the weight vectors are the bundle's existing leak-item
adds/removes and category carts, in the source's call order. -/
def reprojectForDateRange (data : AnalyticsResponse) (fromD toD : ℤ) :
    Option AnalyticsResponse :=
  if rpFiltered data fromD toD = [] then
    some { data with
      sessions := []
      daily := { data.daily with series := [] }
      leak := ⟨0, []⟩
      categoryInteractions := []
      recos := []
      frequentBundles := []
      priceRangeData := ⟨[], [], [], []⟩
      priceBands := ⟨[]⟩
      transitions := ⟨fiveStates, List.replicate 5 (List.replicate 5 0),
        List.replicate 5 (List.replicate 5 0)⟩
      sankey := ⟨fiveStates, []⟩ }
  else
    (distributeToTotal (rpTotalAdds data fromD toD)
        (data.leak.items.map LeakItem.adds)).bind fun addsAlloc =>
    (distributeToTotal (rpTotalRemoves data fromD toD)
        (data.leak.items.map LeakItem.removes)).bind fun remsAlloc =>
    (distributeToTotal (rpTotalAdds data fromD toD)
        (data.categoryInteractions.map CatRow.carts)).bind fun cartsAlloc =>
    some (reprojectWith data fromD toD addsAlloc remsAlloc cartsAlloc)

/-- Inversion principle for a successful non-empty reprojection. -/
lemma reproject_some_iff (data : AnalyticsResponse) (fromD toD : ℤ)
    (hne : rpFiltered data fromD toD ≠ []) (r : AnalyticsResponse) :
    reprojectForDateRange data fromD toD = some r ↔
      ∃ aA rA cA,
        distributeToTotal (rpTotalAdds data fromD toD)
          (data.leak.items.map LeakItem.adds) = some aA ∧
        distributeToTotal (rpTotalRemoves data fromD toD)
          (data.leak.items.map LeakItem.removes) = some rA ∧
        distributeToTotal (rpTotalAdds data fromD toD)
          (data.categoryInteractions.map CatRow.carts) = some cA ∧
        r = reprojectWith data fromD toD aA rA cA := by
  rw [reprojectForDateRange, if_neg hne]
  constructor
  · intro hr
    rw [Option.bind_eq_some] at hr
    obtain ⟨aA, hA, hr⟩ := hr
    rw [Option.bind_eq_some] at hr
    obtain ⟨rA, hB, hr⟩ := hr
    rw [Option.bind_eq_some] at hr
    obtain ⟨cA, hC, hr⟩ := hr
    exact ⟨aA, rA, cA, hA, hB, hC, (Option.some.inj hr).symm⟩
  · rintro ⟨aA, rA, cA, hA, hB, hC, rfl⟩
    rw [hA, Option.some_bind, hB, Option.some_bind, hC, Option.some_bind]

/-- C6: a reprojection whose date range matches no session never throws
and returns exactly the defined empty shape: empty sessions, empty daily
series, leak `{overall := 0, items := []}`, empty category interactions,
empty price-sample arrays and price bands, zero-filled 5×5 transition
count and probability matrices over the five fixed states, and no flow
links. -/
theorem claim_C6_empty_range (data : AnalyticsResponse) (fromD toD : ℤ)
    (h : data.sessions.filter (sessionInRange fromD toD) = []) :
    reprojectForDateRange data fromD toD = some { data with
      sessions := []
      daily := { data.daily with series := [] }
      leak := ⟨0, []⟩
      categoryInteractions := []
      recos := []
      frequentBundles := []
      priceRangeData := ⟨[], [], [], []⟩
      priceBands := ⟨[]⟩
      transitions := ⟨fiveStates, List.replicate 5 (List.replicate 5 0),
        List.replicate 5 (List.replicate 5 0)⟩
      sankey := ⟨fiveStates, []⟩ } := by
  have h' : rpFiltered data fromD toD = [] := h
  rw [reprojectForDateRange, if_pos h']

/-- Minimal concrete bundle used to instantiate reprojection theorems. -/
def tinyBundle : AnalyticsResponse where
  sessions := [⟨1, 1, 1, 0, 0, 0, 0⟩]
  leak := ⟨0, []⟩
  recos := []
  frequentBundles := []
  priceMarkov := ⟨⟨0, 0⟩, ⟨0, 0⟩, ⟨0, 0⟩, ⟨0, 0⟩⟩
  priceMarkovMeta := ⟨none, none, 0, 0⟩
  priceBands := ⟨[]⟩
  priceRangeData := ⟨[], [], [], []⟩
  categoryInteractions := []
  transitions := ⟨fiveStates, List.replicate 5 (List.replicate 5 0),
    List.replicate 5 (List.replicate 5 0)⟩
  sankey := ⟨fiveStates, []⟩
  daily := ⟨[], ⟨false, 0, 0, []⟩⟩
  geoInsights := []
  itemMeta := []
  version := 0

/-- Witness for C6: a concrete bundle and a range matching none of its
sessions degenerate to the empty shape (in particular no flow links). -/
theorem claim_C6_witness :
    tinyBundle.sessions.filter (sessionInRange 5 5) = [] ∧
      ∃ r, reprojectForDateRange tinyBundle 5 5 = some r ∧
        r.sankey.links = [] ∧ r.sessions = [] := by
  have h : tinyBundle.sessions.filter (sessionInRange 5 5) = [] := by decide
  exact ⟨h, _, claim_C6_empty_range tinyBundle 5 5 h, rfl, rfl⟩

/-- C10: a reprojection with at least one matching session (that returns a
bundle) leaves `geoInsights`, `priceMarkov`, `priceMarkovMeta`,
`itemMeta`, `daily.anomaly`, `__version` — and also `recos` — identical to
the input bundle; only the remaining fields are recomputed. -/
theorem claim_C10_frame (data : AnalyticsResponse) (fromD toD : ℤ)
    (r : AnalyticsResponse)
    (hne : data.sessions.filter (sessionInRange fromD toD) ≠ [])
    (hr : reprojectForDateRange data fromD toD = some r) :
    r.geoInsights = data.geoInsights ∧
      r.priceMarkov = data.priceMarkov ∧
      r.priceMarkovMeta = data.priceMarkovMeta ∧
      r.itemMeta = data.itemMeta ∧
      r.daily.anomaly = data.daily.anomaly ∧
      r.version = data.version ∧
      r.recos = data.recos := by
  have hne' : rpFiltered data fromD toD ≠ [] := hne
  obtain ⟨aA, rA, cA, _, _, _, rfl⟩ :=
    (reproject_some_iff data fromD toD hne' r).mp hr
  exact ⟨rfl, rfl, rfl, rfl, rfl, rfl, rfl⟩

/-- Witness for C10 at a concrete bundle and a range matching its only
session. -/
theorem claim_C10_witness :
    tinyBundle.sessions.filter (sessionInRange 0 0) ≠ [] ∧
      ∃ r, reprojectForDateRange tinyBundle 0 0 = some r ∧
        r.version = tinyBundle.version ∧ r.recos = tinyBundle.recos := by
  have hne : tinyBundle.sessions.filter (sessionInRange 0 0) ≠ [] := by decide
  have hs : (reprojectForDateRange tinyBundle 0 0).isSome = true := by decide
  obtain ⟨r, hr⟩ := Option.isSome_iff_exists.mp hs
  have h := claim_C10_frame tinyBundle 0 0 r hne hr
  exact ⟨hne, r, hr, h.2.2.2.2.2.1, h.2.2.2.2.2.2⟩

/-! ## Identifier resolution (`strId`)

JS object graphs can be cyclic, so identifier-position values are modelled
as references into an explicit heap.  String-classification checks are
recorded as attributes of each heap object: `toStr = none` models the
default `toString` result `"[object Object]"`, and `toStrHex24` records
whether the `toString` result matches `/^[0-9a-fA-F]{24}$/`. -/

/-- A value in an identifier position: `null`/`undefined`/`""`/`0` (all
falsy — the code returns `null` for them), a (non-empty) string, or a
reference to a heap object. -/
inductive JsVal where
  | null
  | str (s : Str)
  | ref (a : ℕ)
deriving DecidableEq

/-- A heap object as seen by `strId`. -/
structure JsObj where
  oid : Option Str
  idField : Option JsVal
  toStr : Option Str
  toStrHex24 : Bool
deriving DecidableEq

/-- The object heap. -/
abbrev Heap := List (ℕ × JsObj)

/-- Address lookup in the heap. -/
def heapFind : Heap → ℕ → Option JsObj
  | [], _ => none
  | (k, o) :: t, a => if k = a then some o else heapFind t a

/-- The set of allocated addresses. -/
def heapDom (h : Heap) : Finset ℕ := (h.map Prod.fst).toFinset

lemma heapFind_mem_dom (h : Heap) (a : ℕ) (o : JsObj)
    (hf : heapFind h a = some o) : a ∈ heapDom h := by
  induction h with
  | nil => simp [heapFind] at hf
  | cons p t ih =>
    rw [heapFind] at hf
    by_cases hk : p.1 = a
    · simp [heapDom, List.mem_toFinset, hk.symm]
    · rw [if_neg hk] at hf
      have := ih hf
      simp only [heapDom, List.map_cons, List.toFinset_cons, Finset.mem_insert]
      right
      simpa [heapDom] using this

/-- Code of the string `"[object Object]"` (the default `toString`
result). -/
def objectObjectStr : Str := 0

/-- Embedding of the recursion of `strId`
(`src/lib/analytic.service.ts`), indexed by explicit fuel.  The `seen`
set is the JS `WeakSet`; an inner `none` is the JS `null`; an outer
`none` means the recursion did not return within `fuel` steps — the
termination theorem below shows fuel `|heapDom \ seen| + 1` always
suffices, which is exactly the code's informal termination argument
(every recursive call inserts a fresh allocated address into `seen`). -/
def strIdF (h : Heap) : ℕ → JsVal → Finset ℕ → Option (Option Str)
  | 0, _, _ => none
  | _ + 1, .null, _ => some none
  | _ + 1, .str s, _ => some (some s)
  | fuel + 1, .ref a, seen =>
    match heapFind h a with
    | none => some none
    | some o =>
      if o.toStrHex24 then some (some (o.toStr.getD objectObjectStr))
      else if a ∈ seen then some none
      else
        match o.oid with
        | some s => some (some s)
        | none =>
          match o.idField with
          | some v => strIdF h fuel v (insert a seen)
          | none => some (some (o.toStr.getD objectObjectStr))

lemma strIdF_mono (h : Heap) :
    ∀ {n m : ℕ}, n ≤ m → ∀ {v : JsVal} {seen : Finset ℕ} {r : Option Str},
      strIdF h n v seen = some r → strIdF h m v seen = some r := by
  intro n
  induction n with
  | zero => intro m _ v seen r hr; simp [strIdF] at hr
  | succ n ih =>
    intro m hm v seen r hr
    obtain ⟨m', rfl⟩ : ∃ m', m = m' + 1 := ⟨m - 1, by omega⟩
    cases v with
    | null => simpa [strIdF] using hr
    | str s => simpa [strIdF] using hr
    | ref a =>
      rcases hfind : heapFind h a with _ | o
      · simp [strIdF, hfind] at hr ⊢
        exact hr
      · cases hhex : o.toStrHex24 with
        | true =>
          simp [strIdF, hfind, hhex] at hr ⊢
          exact hr
        | false =>
          by_cases hseen : a ∈ seen
          · simp [strIdF, hfind, hhex, hseen] at hr ⊢
            exact hr
          · rcases hoid : o.oid with _ | s
            · rcases hid : o.idField with _ | v'
              · simp [strIdF, hfind, hhex, hseen, hoid, hid] at hr ⊢
                exact hr
              · simp only [strIdF, hfind, hhex, hseen, hoid, hid,
                  Bool.false_eq_true, if_false, ite_false] at hr ⊢
                exact ih (by omega) hr
            · simp [strIdF, hfind, hhex, hseen, hoid] at hr ⊢
              exact hr

lemma strIdF_total (h : Heap) :
    ∀ (n : ℕ) (v : JsVal) (seen : Finset ℕ),
      (heapDom h \ seen).card < n → ∃ r, strIdF h n v seen = some r := by
  intro n
  induction n with
  | zero => intro v seen hc; omega
  | succ n ih =>
    intro v seen hc
    cases v with
    | null => exact ⟨none, rfl⟩
    | str s => exact ⟨some s, rfl⟩
    | ref a =>
      rcases hfind : heapFind h a with _ | o
      · exact ⟨none, by simp [strIdF, hfind]⟩
      · cases hhex : o.toStrHex24 with
        | true =>
          exact ⟨some (o.toStr.getD objectObjectStr),
            by simp [strIdF, hfind, hhex]⟩
        | false =>
          by_cases hseen : a ∈ seen
          · exact ⟨none, by simp [strIdF, hfind, hhex, hseen]⟩
          · rcases hoid : o.oid with _ | s
            · rcases hid : o.idField with _ | v'
              · exact ⟨some (o.toStr.getD objectObjectStr),
                  by simp [strIdF, hfind, hhex, hseen, hoid, hid]⟩
              · have hlt : (heapDom h \ insert a seen).card < n := by
                  have hmem : a ∈ heapDom h \ seen :=
                    Finset.mem_sdiff.mpr ⟨heapFind_mem_dom h a o hfind, hseen⟩
                  have := Finset.card_erase_lt_of_mem hmem
                  rw [Finset.sdiff_insert]
                  omega
                obtain ⟨r, hr⟩ := ih v' (insert a seen) hlt
                exact ⟨r, by simp [strIdF, hfind, hhex, hseen, hoid, hid, hr]⟩
            · exact ⟨some s, by simp [strIdF, hfind, hhex, hseen, hoid]⟩

/-- Total form of `strId`: runs the recursion with the provably
sufficient fuel `|heapDom \ seen| + 1`.  By `strIdF_total` the fuel never
runs out, so the `getD` default is never taken. -/
def strId (h : Heap) (v : JsVal) (seen : Finset ℕ) : Option Str :=
  (strIdF h ((heapDom h \ seen).card + 1) v seen).getD none

/-- C9: identifier resolution terminates on every input — any fuel
exceeding the number of not-yet-visited heap objects makes the recursion
return, with the same result `strId` computes — and on a self-referential
object (whose `_id` is the object itself, with no `$oid` and a default
`toString`) it detects the cycle and returns the null identifier instead
of recursing forever or throwing. -/
theorem claim_C9_strId_cycle_safe :
    (∀ (h : Heap) (n : ℕ) (v : JsVal) (seen : Finset ℕ),
        (heapDom h \ seen).card < n →
        strIdF h n v seen = some (strId h v seen)) ∧
    (∀ (h : Heap) (a : ℕ) (o : JsObj), heapFind h a = some o →
        o.idField = some (.ref a) → o.toStrHex24 = false → o.oid = none →
        strId h (.ref a) ∅ = none) := by
  constructor
  · intro h n v seen hc
    obtain ⟨r, hr⟩ :=
      strIdF_total h ((heapDom h \ seen).card + 1) v seen (by omega)
    have h2 : strIdF h n v seen = some r := strIdF_mono h (by omega) hr
    rw [h2, strId, hr]
    rfl
  · intro h a o hfind hid hhex hoid
    have hmem : a ∈ heapDom h := heapFind_mem_dom h a o hfind
    have hcard : 1 ≤ (heapDom h \ ∅).card := by
      rw [Finset.sdiff_empty]
      exact Finset.card_pos.mpr ⟨a, hmem⟩
    obtain ⟨c, hc⟩ : ∃ c, (heapDom h \ ∅).card = c + 1 :=
      ⟨(heapDom h \ ∅).card - 1, by omega⟩
    rw [strId, hc]
    simp [strIdF, hfind, hhex, hoid, hid]

/-- A directly self-referential heap object: `objA = { _id: objA }`. -/
def cycObj : JsObj := ⟨none, some (.ref 0), none, false⟩

/-- A one-object heap holding the circular object. -/
def cycHeap : Heap := [(0, cycObj)]

/-- Witness for C9 at the concrete circular heap: resolution detects the
cycle and returns null, and the bounded-fuel run returns (termination). -/
theorem claim_C9_witness :
    heapFind cycHeap 0 = some cycObj ∧
      strId cycHeap (.ref 0) ∅ = none ∧
      strIdF cycHeap ((heapDom cycHeap \ ∅).card + 1) (.ref 0) ∅ =
        some (strId cycHeap (.ref 0) ∅) := by
  have hfind : heapFind cycHeap 0 = some cycObj := rfl
  have h2 := claim_C9_strId_cycle_safe.2 cycHeap 0 cycObj hfind rfl rfl rfl
  have h1 := claim_C9_strId_cycle_safe.1 cycHeap
    ((heapDom cycHeap \ ∅).card + 1) (.ref 0) ∅ (by omega)
  exact ⟨hfind, h2, h1⟩

/-! ## Ingestion and normalization

Raw documents are modelled structurally: each field the code reads through
`safeGet`/optional chaining becomes an `Option` field named after its
access path.  Timestamp fields hold the result of `parseDate` (`none` for
missing or unparseable values — `parseDate` accepts dates, epoch numbers,
ISO strings, and `$date`/`date` wrappers, and returns `null` otherwise).
`Number(price) || 0` coercion and the `Number.isFinite` filters are
identities in the `ℚ` model. -/

/-- The string `"unknown"` (default visitor id). -/
def unknownVisitorStr : Str := 1

/-- The string `"Unknown"` (default country). -/
def unknownCountryStr : Str := 2

/-- The string `"Other"` (category fallback). -/
def otherCategoryStr : Str := 3

/-- An arbitrary fresh identifier standing for `randomUUID()`; no claim
depends on its value. -/
def uuidStr : Str := 4

/-- The empty string (brand fallback). -/
def emptyStr : Str := 5

/-- The `VERSION` constant. -/
def versionStr : Str := 6

/-- The wall-clock time `new Date()` used as a last-resort fallback for
missing session dates; modelled as a constant. -/
def nowMs : ℤ := 0

/-- JS `Map.set` / object property assignment: updates an existing key in
place (keeping its insertion position) or appends a new one. -/
def mapSet {K V : Type} [DecidableEq K] :
    List (K × V) → K → V → List (K × V)
  | [], k, v => [(k, v)]
  | (k', v') :: t, k, v =>
    if k' = k then (k', v) :: t else (k', v') :: mapSet t k v

/-- JS `Map.get` / property read. -/
def mapGet {K V : Type} [DecidableEq K] : List (K × V) → K → Option V
  | [], _ => none
  | (k', v) :: t, k => if k' = k then some v else mapGet t k

/-- `m.set(k, (m.get(k) ?? 0) + d)`. -/
def bumpBy {K : Type} [DecidableEq K] (m : List (K × ℕ)) (k : K) (d : ℕ) :
    List (K × ℕ) :=
  mapSet m k ((mapGet m k).getD 0 + d)

/-- A JS `Set` built from a list: insertion-ordered deduplication keeping
first occurrences. -/
def jsSetOfList {α : Type} [DecidableEq α] (l : List α) : List α :=
  l.foldl (fun acc x => if x ∈ acc then acc else acc ++ [x]) []

/-- A raw `viewItems` / `cartItems` / `wishlistItems` entry. -/
structure RawEvt where
  item : JsVal
  createdAt : Option ℤ
  date : Option ℤ
  updatedAt : Option ℤ
  deleted : Bool
deriving DecidableEq

/-- A raw tracking (customer-visit) document. -/
structure TrackingDoc where
  _id : JsVal
  visitorId : Option Str
  country : Option Str
  createdAt : Option ℤ
  viewItems : List RawEvt
  cartItems : List RawEvt
  wishlistItems : List RawEvt
deriving DecidableEq

/-- A session event; view events carry no add/remove flags in JS
(`undefined`), which behaves as `0` under both `?? 0` and truthiness, so
they are `0` here. -/
structure SessionEvent where
  itemId : Str
  ts : ℤ
  add : ℕ
  remove : ℕ
deriving DecidableEq

/-- The typed session produced by ingestion. -/
structure Session where
  sessionId : Str
  visitorId : Str
  country : Str
  ts : ℤ
  nView : ℕ
  nCartAdd : ℕ
  nCartRemove : ℕ
  uniqueItems : List Str
  views : List SessionEvent
  carts : List SessionEvent
  wish : List SessionEvent
deriving DecidableEq

/-- Embedding of `collectSessionEvents`: normalizes one raw document into
a `Session`, expanding `deleted` cart/wishlist entries into an add at
creation time plus a remove at update time. -/
def collectSessionEvents (h : Heap) (doc : TrackingDoc) : Session :=
  let sessionId := (strId h doc._id ∅).getD uuidStr
  let visitorId := doc.visitorId.getD unknownVisitorStr
  let country := doc.country.getD unknownCountryStr
  let ts := doc.createdAt.getD nowMs
  let views : List SessionEvent := doc.viewItems.filterMap fun raw =>
    (strId h raw.item ∅).map fun id =>
      ⟨id, (raw.createdAt.or raw.date).getD ts, 0, 0⟩
  let carts : List SessionEvent := doc.cartItems.flatMap fun raw =>
    match strId h raw.item ∅ with
    | none => []
    | some id =>
      let time := raw.createdAt.getD ts
      if raw.deleted then
        [⟨id, time, 1, 0⟩, ⟨id, raw.updatedAt.getD time, 0, 1⟩]
      else
        [⟨id, time, 1, 0⟩]
  let wish : List SessionEvent := doc.wishlistItems.flatMap fun raw =>
    match strId h raw.item ∅ with
    | none => []
    | some id =>
      let time := (raw.createdAt.or raw.date).getD ts
      if raw.deleted then
        [⟨id, time, 1, 0⟩, ⟨id, raw.updatedAt.getD time, 0, 1⟩]
      else
        [⟨id, time, 1, 0⟩]
  { sessionId := sessionId
    visitorId := visitorId
    country := country
    ts := ts
    nView := views.length
    nCartAdd := (carts.map SessionEvent.add).sum
    nCartRemove := (carts.map SessionEvent.remove).sum
    uniqueItems := jsSetOfList
      (views.map SessionEvent.itemId ++ carts.map SessionEvent.itemId ++
        wish.map SessionEvent.itemId)
    views := views
    carts := carts
    wish := wish }

/-- A raw product-category document. -/
structure CategoryDoc where
  _id : JsVal
  id : JsVal
  name : Option Str
deriving DecidableEq

/-- Embedding of `buildCategoryMap` (`name` is `none` when the raw name is
missing or trims to the empty string). -/
def buildCategoryMap (h : Heap) (categories : List CategoryDoc) :
    List (Str × Str) :=
  categories.foldl
    (fun m cat =>
      match (strId h cat._id ∅).or (strId h cat.id ∅), cat.name with
      | some id, some name => mapSet m id name
      | _, _ => m)
    []

/-- A raw listing document; fields named after the `safeGet` paths the
code reads (`productInfo.item_name.0.value`, `prodPricing.retailPrice`,
`prodPricing.listingWithoutStockVariations.0.retailPrice`,
`productInfo.productCategory(.$oid)`, `prodTechInfo.type`,
`productInfo.brand.0.value`). -/
structure ListingDoc where
  _id : JsVal
  itemName0 : Option Str
  aliasField : Option Str
  sku : Option Str
  retailPrice : Option ℚ
  variantRetailPrice0 : Option ℚ
  productCategoryOid : Option Str
  productCategory : Option JsVal
  techType : Option Str
  brand0 : Option Str
deriving DecidableEq

/-- Embedding of `buildItemMeta`. -/
def buildItemMeta (h : Heap) (listings : List ListingDoc)
    (categoryMap : List (Str × Str)) : List (Str × ItemMetaEntry) :=
  listings.foldl
    (fun meta l =>
      match strId h l._id ∅ with
      | none => meta
      | some id =>
        let title := ((l.itemName0.or l.aliasField).or l.sku).getD id
        let price := (l.retailPrice.or l.variantRetailPrice0).getD 0
        let catVal : Option JsVal :=
          (l.productCategoryOid.map JsVal.str).or l.productCategory
        let categoryId : Option Str := catVal.bind fun v => strId h v ∅
        let category : Option Str :=
          categoryId.bind fun cid => mapGet categoryMap cid
        let category := ((category.or l.techType).or l.brand0).getD otherCategoryStr
        let brand := l.brand0.getD emptyStr
        mapSet meta id ⟨title, price, category, brand⟩)
    []

/-! ## Behavioral aggregators -/

/-- Embedding of `clampValue`. -/
def clampValue (value lo hi : ℚ) : ℚ := min (max value lo) hi

/-- Accumulator of `leakAnalytics`: the `adds`/`removes` maps and the
running totals. -/
structure LeakAcc where
  adds : List (Str × ℕ)
  removes : List (Str × ℕ)
  tAdds : ℕ
  tRem : ℕ

/-- One cart event of `leakAnalytics`'s inner loop (key is the item id). -/
def leakStep (acc : LeakAcc) (evt : SessionEvent) : LeakAcc :=
  let acc :=
    if evt.add ≠ 0 then
      { acc with
        adds := bumpBy acc.adds evt.itemId evt.add
        tAdds := acc.tAdds + evt.add }
    else acc
  if evt.remove ≠ 0 then
    { acc with
      removes := bumpBy acc.removes evt.itemId evt.remove
      tRem := acc.tRem + evt.remove }
  else acc

/-- Embedding of `leakAnalytics` (the `itemMeta` parameter is unused by
the source function as well). -/
def leakAnalytics (sessions : List Session)
    (itemMeta : List (Str × ItemMetaEntry)) : LeakOut :=
  let acc := sessions.foldl (fun a s => s.carts.foldl leakStep a) ⟨[], [], 0, 0⟩
  let keys := jsSetOfList (acc.adds.map Prod.fst ++ acc.removes.map Prod.fst)
  let rows := keys.map fun key =>
    let a := (mapGet acc.adds key).getD 0
    let r := (mapGet acc.removes key).getD 0
    ({ item := key
       adds := (a : ℚ)
       removes := (r : ℚ)
       leak := if 0 < a then clampValue ((r : ℚ) / (a : ℚ)) 0 1 else 0 } : LeakItem)
  ⟨if 0 < acc.tAdds then clampValue ((acc.tRem : ℚ) / (acc.tAdds : ℚ)) 0 1 else 0,
   List.insertionSort leakGe rows⟩

/-- The canonical pair key `a < b ? (a,b) : (b,a)` (the JS code compares
the id strings lexicographically; the natural codes preserve that
order). -/
def ordKey (a b : Str) : Str × Str := if a < b then (a, b) else (b, a)

/-- Keys of the `i < j` double loop over a session's unique items, in
loop order. -/
def pairKeysOf (items : List Str) : List (Str × Str) :=
  items.enum.flatMap fun ia => (items.drop (ia.1 + 1)).map fun b => ordKey ia.2 b

/-- Recommendation-entry order: `(x, y) => y.score - x.score`. -/
def scoreGe (x y : Str × ℚ) : Prop := y.2 ≤ x.2

instance : DecidableRel scoreGe := fun a b => by
  unfold scoreGe; infer_instance

/-- Pair-support order: `(a, b) => b[1] - a[1]`. -/
def pairSupGe (x y : (Str × Str) × ℕ) : Prop := y.2 ≤ x.2

instance : DecidableRel pairSupGe := fun a b => by
  unfold pairSupGe; infer_instance

/-- Result of `cooccurrenceRecos` (the `itemFreq` map is also returned by
the source but never consumed). -/
structure RecoResult where
  recos : List (Str × List (Str × ℚ))
  bundles : List FreqBundle

/-- The pair-support and item-frequency maps of `cooccurrenceRecos`. -/
def cooccurrenceMaps (sessions : List Session) :
    List ((Str × Str) × ℕ) × List (Str × ℕ) :=
  sessions.foldl
    (fun st session =>
      let freq := session.uniqueItems.foldl (fun f id => bumpBy f id 1) st.2
      let pairs := (pairKeysOf session.uniqueItems).foldl
        (fun m k => bumpBy m k 1) st.1
      (pairs, freq))
    ([], [])

/-- The per-item recommendation lists before sorting and truncation:
each pair `(a,b)` with support `s` contributes `(b, score)` to `a`'s list
and `(a, score)` to `b`'s list, `score = s / sqrt(freq a * freq b)`. -/
def recosRawOf (p : FloatPrims) (pairs : List ((Str × Str) × ℕ))
    (freq : List (Str × ℕ)) : List (Str × List (Str × ℚ)) :=
  pairs.foldl
    (fun acc kv =>
      let a := kv.1.1
      let b := kv.1.2
      let score := (kv.2 : ℚ) /
        p.sqrt ((((mapGet freq a).getD 1 : ℕ) : ℚ) *
          (((mapGet freq b).getD 1 : ℕ) : ℚ))
      let acc := mapSet acc a ((mapGet acc a).getD [] ++ [(b, score)])
      mapSet acc b ((mapGet acc b).getD [] ++ [(a, score)]))
    []

/-- Embedding of `cooccurrenceRecos`. -/
def cooccurrenceRecos (p : FloatPrims) (sessions : List Session) : RecoResult :=
  let st := cooccurrenceMaps sessions
  let recosRaw := recosRawOf p st.1 st.2
  let recos := recosRaw.map fun kv =>
    (kv.1, (List.insertionSort scoreGe kv.2).take 10)
  let bundles := ((List.insertionSort pairSupGe st.1).take 15).map fun kv =>
    ({ items := (kv.1.1, kv.1.2), support := (kv.2 : ℚ) } : FreqBundle)
  ⟨recos, bundles⟩

/-! ## Price segmentation -/

/-- Embedding of d3's `quantileSorted` (linear interpolation between order
statistics). -/
def quantileSorted (values : List ℚ) (p : ℚ) : Option ℚ :=
  let n := values.length
  if n = 0 then none
  else if p ≤ 0 ∨ n < 2 then some (values.getD 0 0)
  else if 1 ≤ p then some (values.getD (n - 1) 0)
  else
    let i : ℚ := ((n : ℚ) - 1) * p
    let i0 : ℕ := ⌊i⌋.toNat
    let v0 := values.getD i0 0
    let v1 := values.getD (i0 + 1) 0
    some (v0 + (v1 - v0) * (i - (i0 : ℚ)))

/-- Ascending numeric order (`(a, b) => a - b`). -/
def qLe (a b : ℚ) : Prop := a ≤ b

instance : DecidableRel qLe := fun a b => by
  unfold qLe; infer_instance

/-- Result of `robustPriceSplits`. -/
structure SplitsResult where
  tLow : Option ℚ
  tHigh : Option ℚ
  dispMin : ℚ
  dispMax : ℚ
deriving DecidableEq

/-- Embedding of `robustPriceSplits`; the `Number.isFinite` filter is the
identity in the `ℚ` model. -/
def robustPriceSplits (p : FloatPrims) (prices : List ℚ) : SplitsResult :=
  let filtered := prices
  if filtered = [] then ⟨none, none, 0, 0⟩
  else
    let sorted := List.insertionSort qLe filtered
    let p05 := (quantileSorted sorted (5/100)).getD (sorted.getD 0 0)
    let p95 := (quantileSorted sorted (95/100)).getD
      (sorted.getD (sorted.length - 1) 0)
    let clipped := sorted.filter fun v => decide (p05 ≤ v ∧ v ≤ p95)
    let logValues := List.insertionSort qLe (clipped.map p.log1p)
    let l33 := quantileSorted logValues (33/100)
    let l66 := quantileSorted logValues (66/100)
    ⟨l33.map p.expm1, l66.map p.expm1, p05, p95⟩

/-- The item prices fed to the splitter
(`Object.values(itemMeta).map(m => m.price || 0).filter(isFinite)`). -/
def metaPrices (itemMeta : List (Str × ItemMetaEntry)) : List ℚ :=
  itemMeta.map fun kv => kv.2.price

/-- Price of an item (`itemMeta[id]?.price ?? 0`). -/
def itemPrice (itemMeta : List (Str × ItemMetaEntry)) (id : Str) : ℚ :=
  ((mapGet itemMeta id).map ItemMetaEntry.price).getD 0

/-- Category of an item (`itemMeta[id]?.category ?? "Other"`). -/
def itemCategory (itemMeta : List (Str × ItemMetaEntry)) (id : Str) : Str :=
  ((mapGet itemMeta id).map ItemMetaEntry.category).getD otherCategoryStr

/-- The `tierForItem` closure of `priceSegmentedMarkov`. -/
def tierForItem (tLow tHigh : Option ℚ)
    (itemMeta : List (Str × ItemMetaEntry)) (id : Str) : PriceTier :=
  let price := itemPrice itemMeta id
  match tLow, tHigh with
  | some tl, some th =>
    if tl = th then .All
    else if price ≤ tl then .Low
    else if price ≤ th then .Mid
    else .High
  | _, _ => .All

/-- Per-tier accumulator of `priceSegmentedMarkov`. -/
structure TierAcc where
  nViewSess : ℕ
  nViewThenCartSess : ℕ
  adds : ℕ
  removes : ℕ
deriving DecidableEq

/-- Field update of the fixed-key tier record. -/
def setTier (m : PriceMarkov) : PriceTier → TierStats → PriceMarkov
  | .Low, s => { m with Low := s }
  | .Mid, s => { m with Mid := s }
  | .High, s => { m with High := s }
  | .All, s => { m with All := s }

/-- Result of `priceSegmentedMarkov`. -/
structure MarkovSummary where
  model : PriceMarkov
  tLow : Option ℚ
  tHigh : Option ℚ
  min : ℚ
  max : ℚ

/-- Embedding of `priceSegmentedMarkov`. -/
def priceSegmentedMarkov (p : FloatPrims) (sessions : List Session)
    (itemMeta : List (Str × ItemMetaEntry)) : MarkovSummary :=
  let sp := robustPriceSplits p (metaPrices itemMeta)
  let tf := tierForItem sp.tLow sp.tHigh itemMeta
  let st := sessions.foldl
    (fun (st : List (PriceTier × TierAcc) × TierAcc) session =>
      let viewed := jsSetOfList (session.views.map fun e => tf e.itemId)
      let added := jsSetOfList
        ((session.carts.filter fun e => decide (e.add ≠ 0)).map fun e =>
          tf e.itemId)
      let overall :=
        if 0 < session.views.length then
          let o := { st.2 with nViewSess := st.2.nViewSess + 1 }
          if session.carts.any (fun e => decide (e.add ≠ 0)) then
            { o with nViewThenCartSess := o.nViewThenCartSess + 1 }
          else o
        else st.2
      let tiers := viewed.foldl
        (fun ts tier =>
          let state := (mapGet ts tier).getD ⟨0, 0, 0, 0⟩
          let state := { state with nViewSess := state.nViewSess + 1 }
          let state :=
            if tier ∈ added then
              { state with nViewThenCartSess := state.nViewThenCartSess + 1 }
            else state
          mapSet ts tier state)
        st.1
      session.carts.foldl
        (fun so evt =>
          let tier := tf evt.itemId
          let state := (mapGet so.1 tier).getD ⟨0, 0, 0, 0⟩
          let state := { state with
            adds := state.adds + evt.add
            removes := state.removes + evt.remove }
          (mapSet so.1 tier state,
           { so.2 with
             adds := so.2.adds + evt.add
             removes := so.2.removes + evt.remove }))
        (tiers, overall))
    ([], ⟨0, 0, 0, 0⟩)
  let tiers := st.1
  let overall := st.2
  let base : PriceMarkov := ⟨⟨0, 0⟩, ⟨0, 0⟩, ⟨0, 0⟩, ⟨0, 0⟩⟩
  let statsOf := fun (state : TierAcc) =>
    let viewToCart : ℚ :=
      if 0 < state.nViewSess then
        (state.nViewThenCartSess : ℚ) / (state.nViewSess : ℚ)
      else 0
    let denom : ℚ := if 0 < state.adds then (state.adds : ℚ) else 1
    (⟨viewToCart,
      clampValue (((state.adds : ℚ) - (state.removes : ℚ)) / denom) 0 1⟩ :
      TierStats)
  let overallStats := statsOf overall
  if tiers = [] then
    ⟨setTier base .All overallStats, sp.tLow, sp.tHigh, sp.dispMin, sp.dispMax⟩
  else
    let model := tiers.foldl (fun m kv => setTier m kv.1 (statsOf kv.2)) base
    ⟨setTier model .All overallStats, sp.tLow, sp.tHigh, sp.dispMin, sp.dispMax⟩

/-! ## Event sequence model -/

/-- A timestamped typed event tagged with the acting item's price. -/
structure TransitionEvent where
  ts : ℤ
  type : EType
  itemId : Str
  price : ℚ
deriving DecidableEq

/-- Chronological order of the event stream (`(a, b) => a.ts - b.ts`). -/
def tsLe (a b : TransitionEvent) : Prop := a.ts ≤ b.ts

instance : DecidableRel tsLe := fun a b => by
  unfold tsLe; infer_instance

/-- Embedding of `buildEventStreamForSession`. -/
def buildEventStreamForSession (session : Session)
    (itemMeta : List (Str × ItemMetaEntry)) : List TransitionEvent :=
  let events : List TransitionEvent :=
    (session.views.map fun v =>
      ⟨v.ts, .view, v.itemId, itemPrice itemMeta v.itemId⟩) ++
    (session.carts.flatMap fun c =>
      (if c.add ≠ 0 then
        [(⟨c.ts, .cart_add, c.itemId, itemPrice itemMeta c.itemId⟩ :
          TransitionEvent)] else []) ++
      (if c.remove ≠ 0 then
        [(⟨c.ts, .cart_remove, c.itemId, itemPrice itemMeta c.itemId⟩ :
          TransitionEvent)] else [])) ++
    (session.wish.flatMap fun w =>
      (if w.add ≠ 0 then
        [(⟨w.ts, .wishlist_add, w.itemId, itemPrice itemMeta w.itemId⟩ :
          TransitionEvent)] else []) ++
      (if w.remove ≠ 0 then
        [(⟨w.ts, .wishlist_remove, w.itemId, itemPrice itemMeta w.itemId⟩ :
          TransitionEvent)] else []))
  List.insertionSort tsLe events

/-- Index of a state in the fixed state list. -/
def stateIdx : EType → ℕ
  | .cart_add => 0
  | .cart_remove => 1
  | .view => 2
  | .wishlist_add => 3
  | .wishlist_remove => 4

/-- `counts[ia][ib] += 1`. -/
def bumpMatrix (cm : List (List ℕ)) (i j : ℕ) : List (List ℕ) :=
  cm.set i ((cm.getD i []).set j ((cm.getD i []).getD j 0 + 1))

/-- Result of `transitionMatrixAndSankey`. -/
structure TransInfo where
  states : List EType
  counts : List (List ℕ)
  probs : List (List ℚ)
  sankey : Sankey
  allTransitions : List (TransitionEvent × TransitionEvent)

/-- Embedding of `transitionMatrixAndSankey`: count transitions between
adjacent events of each session's merged stream, row-normalize, and build
the flow-graph links from all non-zero cells (self-loops included). -/
def transitionMatrixAndSankey (sessions : List Session)
    (itemMeta : List (Str × ItemMetaEntry)) : TransInfo :=
  let st := sessions.foldl
    (fun (st : List (List ℕ) × List (TransitionEvent × TransitionEvent))
        session =>
      let events := buildEventStreamForSession session itemMeta
      (events.zip events.tail).foldl
        (fun st2 pr =>
          (bumpMatrix st2.1 (stateIdx pr.1.type) (stateIdx pr.2.type),
           st2.2 ++ [pr]))
        st)
    (List.replicate 5 (List.replicate 5 0), [])
  let counts := st.1
  let countsQ := counts.map fun row => row.map fun c => (c : ℚ)
  let probs := countsQ.map normalizeRow
  ⟨fiveStates, counts, probs, ⟨fiveStates, sankeyLinksAll countsQ⟩, st.2⟩

/-! ## Price bands -/

/-- Per-band totals and hits of `priceBandsFromQuantiles`. -/
structure BandTH where
  view : ℕ
  wish : ℕ
  viewCart : ℕ
  wishCart : ℕ
deriving DecidableEq

/-- The `totals`/`hits` records over the fixed tier keys. -/
structure BandAccs where
  Low : BandTH
  Mid : BandTH
  High : BandTH
  All : BandTH
deriving DecidableEq

def getTH (t : BandAccs) : PriceTier → BandTH
  | .Low => t.Low
  | .Mid => t.Mid
  | .High => t.High
  | .All => t.All

def setTH (t : BandAccs) : PriceTier → BandTH → BandAccs
  | .Low, v => { t with Low := v }
  | .Mid, v => { t with Mid := v }
  | .High, v => { t with High := v }
  | .All, v => { t with All := v }

/-- The `bandForPrice` closure. -/
def bandForPrice (tLow tHigh price : ℚ) : PriceTier :=
  if price ≤ tLow then .Low else if price ≤ tHigh then .Mid else .High

/-- The transition-counting loop of `priceBandsFromQuantiles`. -/
def bandAccum (tLow tHigh : ℚ)
    (transitions : List (TransitionEvent × TransitionEvent)) : BandAccs :=
  transitions.foldl
    (fun acc tr =>
      let band := bandForPrice tLow tHigh tr.1.price
      let acc :=
        if tr.1.type = .view then
          let th := getTH acc band
          let th := { th with view := th.view + 1 }
          let th :=
            if tr.2.type = .cart_add then
              { th with viewCart := th.viewCart + 1 }
            else th
          setTH acc band th
        else acc
      if tr.1.type = .wishlist_add then
        let th := getTH acc band
        let th := { th with wish := th.wish + 1 }
        let th :=
          if tr.2.type = .cart_add then
            { th with wishCart := th.wishCart + 1 }
          else th
        setTH acc band th
      else acc)
    ⟨⟨0, 0, 0, 0⟩, ⟨0, 0, 0, 0⟩, ⟨0, 0, 0, 0⟩, ⟨0, 0, 0, 0⟩⟩

/-- Final per-band rates (`alpha = 1` Laplace smoothing, guarded by the
zero-sample check). -/
def mkBand (accs : BandAccs) (nm : PriceTier) (lo hi : ℚ) : Band :=
  let th := getTH accs nm
  { name := nm
    min := lo
    max := hi
    viewToCart :=
      if th.view ≠ 0 then ((th.viewCart : ℚ) + 1) / ((th.view : ℚ) + 2 * 1)
      else 0
    wishToCart :=
      if th.wish ≠ 0 then ((th.wishCart : ℚ) + 1) / ((th.wish : ℚ) + 2 * 1)
      else 0
    nView := (th.view : ℚ)
    nWish := (th.wish : ℚ) }

/-- Embedding of `priceBandsFromQuantiles`. -/
def priceBandsFromQuantiles (p : FloatPrims)
    (itemMeta : List (Str × ItemMetaEntry))
    (transitions : List (TransitionEvent × TransitionEvent)) : PriceBands :=
  let prices := metaPrices itemMeta
  if prices = [] then ⟨[⟨.All, 0, 0, 0, 0, 0, 0⟩]⟩
  else
    let sp := robustPriceSplits p prices
    match sp.tLow, sp.tHigh with
    | some tl, some th =>
      if tl < th then
        let accs := bandAccum tl th transitions
        ⟨[mkBand accs .Low sp.dispMin tl,
          mkBand accs .Mid tl th,
          mkBand accs .High th sp.dispMax]⟩
      else ⟨[⟨.All, sp.dispMin, sp.dispMax, 0, 0, 0, 0⟩]⟩
    | _, _ => ⟨[⟨.All, sp.dispMin, sp.dispMax, 0, 0, 0, 0⟩]⟩

/-- Embedding of `buildPriceRangeData`. -/
def buildPriceRangeData (sessions : List Session)
    (itemMeta : List (Str × ItemMetaEntry))
    (transitions : List (TransitionEvent × TransitionEvent)) :
    PriceRangeData :=
  { viewFromPrices :=
      (transitions.filter fun tr => decide (tr.1.type = .view)).map fun tr =>
        tr.1.price
    viewToCartFromPrices :=
      (transitions.filter fun tr =>
        decide (tr.1.type = .view ∧ tr.2.type = .cart_add)).map fun tr =>
          tr.1.price
    cartAddPrices := sessions.flatMap fun s =>
      s.carts.filterMap fun c =>
        if c.add ≠ 0 then some (itemPrice itemMeta c.itemId) else none
    cartRemovePrices := sessions.flatMap fun s =>
      s.carts.filterMap fun c =>
        if c.remove ≠ 0 then some (itemPrice itemMeta c.itemId) else none }

/-! ## Geo, category and daily aggregates -/

/-- Geo order: `(a, b) => b.conversionRate - a.conversionRate`. -/
def geoGe (a b : GeoRow) : Prop := b.conversionRate ≤ a.conversionRate

instance : DecidableRel geoGe := fun a b => by
  unfold geoGe; infer_instance

/-- Embedding of `geoBehavioralInsights`. -/
def geoBehavioralInsights (sessions : List Session) : List GeoRow :=
  let byCountry := sessions.foldl
    (fun (m : List (Str × (ℕ × ℕ))) s =>
      let key := if s.country = emptyStr then unknownCountryStr else s.country
      let entry := (mapGet m key).getD (0, 0)
      mapSet m key (entry.1 + 1, entry.2 + (if 0 < s.nCartAdd then 1 else 0)))
    []
  let rows := byCountry.map fun kv =>
    ({ country := kv.1
       conversionRate :=
         if kv.2.1 ≠ 0 then (kv.2.2 : ℚ) / (kv.2.1 : ℚ) else 0 } : GeoRow)
  (List.insertionSort geoGe rows).take 20

/-- Per-category accumulator of `categoryInteractions`. -/
structure CatAcc where
  views : ℕ
  carts : ℕ
  wish : ℕ
  total : ℕ
deriving DecidableEq

/-- The `bump` closure: increments one field and the running total. -/
def catBump (m : List (Str × CatAcc)) (category : Str)
    (upd : CatAcc → CatAcc) : List (Str × CatAcc) :=
  let entry := (mapGet m category).getD ⟨0, 0, 0, 0⟩
  let entry := upd entry
  mapSet m category { entry with total := entry.total + 1 }

/-- Embedding of `categoryInteractions`. -/
def categoryInteractions (sessions : List Session)
    (itemMeta : List (Str × ItemMetaEntry)) : List CatRow :=
  let m := sessions.foldl
    (fun m s =>
      let m := s.views.foldl
        (fun m v =>
          catBump m (itemCategory itemMeta v.itemId) fun e =>
            { e with views := e.views + 1 })
        m
      let m := s.carts.foldl
        (fun m c =>
          if c.add ≠ 0 then
            catBump m (itemCategory itemMeta c.itemId) fun e =>
              { e with carts := e.carts + 1 }
          else m)
        m
      s.wish.foldl
        (fun m w =>
          if w.add ≠ 0 then
            catBump m (itemCategory itemMeta w.itemId) fun e =>
              { e with wish := e.wish + 1 }
          else m)
        m)
    []
  let rows := m.map fun kv =>
    ({ category := kv.1
       views := (kv.2.views : ℚ)
       carts := (kv.2.carts : ℚ)
       wish := (kv.2.wish : ℚ)
       total := (kv.2.total : ℚ) } : CatRow)
  (List.insertionSort catGe rows).take 20

/-- Daily-bucket order (`localeCompare` on `yyyy-MM-dd` keys equals the
numeric day order). -/
def dayLe (a b : ℤ × (ℕ × ℕ)) : Prop := a.1 ≤ b.1

instance : DecidableRel dayLe := fun a b => by
  unfold dayLe; infer_instance

/-- Embedding of `dailyTrends`: buckets views and cart-adds by the
events' own calendar days, then computes the anomaly thresholds
`mean ± 2·stddev` (sample standard deviation via d3's `deviation`). -/
def dailyTrends (p : FloatPrims) (sessions : List Session) : Daily :=
  let byDay := sessions.foldl
    (fun (m : List (ℤ × (ℕ × ℕ))) s =>
      let m := s.views.foldl
        (fun m v =>
          let key := msDay v.ts
          let rec0 := (mapGet m key).getD (0, 0)
          mapSet m key (rec0.1 + 1, rec0.2))
        m
      s.carts.foldl
        (fun m c =>
          if c.add ≠ 0 then
            let key := msDay c.ts
            let rec0 := (mapGet m key).getD (0, 0)
            mapSet m key (rec0.1, rec0.2 + 1)
          else m)
        m)
    []
  let series := (List.insertionSort dayLe byDay).map fun kv =>
    ({ date := kv.1, views := (kv.2.1 : ℚ), carts := (kv.2.2 : ℚ) } : DailyRow)
  let cartCounts := series.map DailyRow.carts
  let n := cartCounts.length
  let avg : ℚ := if n = 0 then 0 else cartCounts.sum / (n : ℚ)
  let std : ℚ :=
    if n < 2 then 0
    else p.sqrt
      ((cartCounts.map fun x => (x - cartCounts.sum / (n : ℚ)) ^ 2).sum /
        ((n : ℚ) - 1))
  let lower := if 0 < avg then max 0 (avg - 2 * std) else 0
  let upper := avg + 2 * std
  let hasThresholds : Bool := decide (3 ≤ n) && decide (0 < std)
  let outliers :=
    if hasThresholds then
      (series.filter fun row =>
        decide (row.carts < lower ∨ upper < row.carts)).map DailyRow.date
    else []
  ⟨series, ⟨hasThresholds, lower, upper, outliers⟩⟩

/-- Serialization of a session into the response bundle
(`ts.toISOString()` keeps the epoch value in this model). -/
def serializeSession (s : Session) : SessionOut :=
  ⟨s.sessionId, s.visitorId, s.country, s.ts,
   (s.nView : ℚ), (s.nCartAdd : ℚ), (s.nCartRemove : ℚ)⟩

/-- Embedding of `computeAnalyticsFromDocs`: the full batch pipeline from
raw documents to the aggregate bundle. -/
def computeAnalyticsFromDocs (p : FloatPrims) (h : Heap)
    (trackingDocs : List TrackingDoc) (listings : List ListingDoc)
    (productCategories : List CategoryDoc) : AnalyticsResponse :=
  let categoryMap := buildCategoryMap h productCategories
  let itemMeta := buildItemMeta h listings categoryMap
  let sessions := trackingDocs.map (collectSessionEvents h)
  let leak := leakAnalytics sessions itemMeta
  let rec0 := cooccurrenceRecos p sessions
  let markov := priceSegmentedMarkov p sessions itemMeta
  let transitionInfo := transitionMatrixAndSankey sessions itemMeta
  let priceBands := priceBandsFromQuantiles p itemMeta
    transitionInfo.allTransitions
  let daily := dailyTrends p sessions
  let geoInsights := geoBehavioralInsights sessions
  let priceRangeData := buildPriceRangeData sessions itemMeta
    transitionInfo.allTransitions
  let catInteractions := categoryInteractions sessions itemMeta
  { sessions := sessions.map serializeSession
    leak := leak
    recos := rec0.recos
    frequentBundles := rec0.bundles
    priceMarkov := markov.model
    priceMarkovMeta :=
      ⟨markov.tLow, markov.tHigh, markov.min, markov.max⟩
    priceBands := priceBands
    priceRangeData := priceRangeData
    categoryInteractions := catInteractions
    transitions := ⟨transitionInfo.states,
      transitionInfo.counts.map fun row => row.map fun c => (c : ℚ),
      transitionInfo.probs⟩
    sankey := transitionInfo.sankey
    daily := daily
    geoInsights := geoInsights
    itemMeta := itemMeta
    version := versionStr }

/-! ## C5: transition-probability rows -/

lemma clamp01_bounds (v : ℚ) :
    0 ≤ clampValue v 0 1 ∧ clampValue v 0 1 ≤ 1 := by
  unfold clampValue
  exact ⟨le_min (le_max_right v 0) zero_le_one, min_le_right _ _⟩

lemma jsClamp01_nonneg (v : ℚ) : 0 ≤ jsClamp v 0 1 := by
  unfold jsClamp
  exact le_min (le_max_right v 0) zero_le_one

lemma rpScale_nonneg (data : AnalyticsResponse) (fromD toD : ℤ) :
    0 ≤ rpScale data fromD toD :=
  jsClamp01_nonneg _

lemma jsRound_nonneg (q : ℚ) (hq : 0 ≤ q) : 0 ≤ jsRound q := by
  unfold jsRound
  rw [Int.floor_nonneg]
  linarith

/-- Normalized rows of non-negative counts either sum to `1` or are
all-zero, with every entry in `[0, 1]`. -/
lemma normalizeRow_props (row : List ℚ) (hnn : ∀ x ∈ row, 0 ≤ x) :
    ((normalizeRow row).sum = 1 ∨ ∀ x ∈ normalizeRow row, x = 0) ∧
      ∀ x ∈ normalizeRow row, 0 ≤ x ∧ x ≤ 1 := by
  by_cases hs : row.sum = 0
  · rw [normalizeRow, if_pos hs]
    refine ⟨Or.inr ?_, ?_⟩
    · intro x hx
      rcases List.mem_map.mp hx with ⟨v, _, rfl⟩
      rfl
    · intro x hx
      rcases List.mem_map.mp hx with ⟨v, _, rfl⟩
      norm_num
  · rw [normalizeRow, if_neg hs]
    have hpos : 0 < row.sum :=
      lt_of_le_of_ne (List.sum_nonneg hnn) (Ne.symm hs)
    constructor
    · left
      rw [List.map_congr_left (g := fun v => v * row.sum⁻¹)
        (by intro a _; rw [div_eq_mul_inv])]
      rw [List.sum_map_mul_right, List.map_id']
      field_simp
    · intro x hx
      rcases List.mem_map.mp hx with ⟨v, hv, rfl⟩
      refine ⟨div_nonneg (hnn v hv) (le_of_lt hpos), ?_⟩
      rw [div_le_one hpos]
      exact List.single_le_sum hnn v hv

/-- The probability matrix of the pipeline is the row-normalized cast of
its count matrix (by unfolding). -/
lemma transition_probs_eq (sessions : List Session)
    (itemMeta : List (Str × ItemMetaEntry)) :
    (transitionMatrixAndSankey sessions itemMeta).probs =
      ((transitionMatrixAndSankey sessions itemMeta).counts.map fun r0 =>
        r0.map fun c => (c : ℚ)).map normalizeRow := rfl

/-- C5: in both the full pipeline and every (returned) reprojection, each
row of the probability matrix sums to `1` or is all-zero (zero-count rows
are never divided), and no entry is negative or exceeds `1`.  For the
reprojection the input bundle's count matrix is assumed non-negative, as
guaranteed for engine-produced bundles. -/
theorem claim_C5_transition_rows :
    (∀ (sessions : List Session) (itemMeta : List (Str × ItemMetaEntry)),
      ∀ row ∈ (transitionMatrixAndSankey sessions itemMeta).probs,
        (row.sum = 1 ∨ ∀ x ∈ row, x = 0) ∧ ∀ x ∈ row, 0 ≤ x ∧ x ≤ 1) ∧
    (∀ (data : AnalyticsResponse) (fromD toD : ℤ) (r : AnalyticsResponse),
      reprojectForDateRange data fromD toD = some r →
      (∀ row ∈ data.transitions.counts, ∀ c ∈ row, 0 ≤ c) →
      ∀ row ∈ r.transitions.probs,
        (row.sum = 1 ∨ ∀ x ∈ row, x = 0) ∧ ∀ x ∈ row, 0 ≤ x ∧ x ≤ 1) := by
  constructor
  · intro sessions itemMeta row hrow
    rw [transition_probs_eq] at hrow
    rcases List.mem_map.mp hrow with ⟨rowQ, hrowQ, rfl⟩
    rcases List.mem_map.mp hrowQ with ⟨rowN, _, rfl⟩
    apply normalizeRow_props
    intro x hx
    rcases List.mem_map.mp hx with ⟨c, hc, rfl⟩
    have hc2 : c ∈ rowN.bind fun a => [((a : ℕ) : ℚ)] := hc
    rcases List.mem_bind.mp hc2 with ⟨a, _, hmem⟩
    rw [List.mem_singleton.mp hmem]
    exact Nat.cast_nonneg a
  · intro data fromD toD r hr hnn row hrow
    by_cases hne : rpFiltered data fromD toD = []
    · rw [reprojectForDateRange, if_pos hne] at hr
      obtain rfl := (Option.some.inj hr).symm
      have hrow2 : row ∈ List.replicate 5 (List.replicate 5 (0 : ℚ)) := hrow
      obtain rfl := List.eq_of_mem_replicate hrow2
      refine ⟨Or.inr fun x hx => List.eq_of_mem_replicate hx, ?_⟩
      intro x hx
      rw [List.eq_of_mem_replicate hx]
      norm_num
    · obtain ⟨aA, rA, cA, _, _, _, rfl⟩ :=
        (reproject_some_iff data fromD toD hne r).mp hr
      have hrow2 : row ∈ (data.transitions.counts.map fun r0 =>
          r0.map fun c =>
            ((jsRound (c * rpScale data fromD toD) : ℤ) : ℚ)).map
          normalizeRow := hrow
      rcases List.mem_map.mp hrow2 with ⟨rowS, hrowS, rfl⟩
      rcases List.mem_map.mp hrowS with ⟨rowC, hrowC, rfl⟩
      apply normalizeRow_props
      intro x hx
      rcases List.mem_map.mp hx with ⟨c, hc, rfl⟩
      have h1 : 0 ≤ c := hnn rowC hrowC c hc
      have h2 : 0 ≤ c * rpScale data fromD toD :=
        mul_nonneg h1 (rpScale_nonneg data fromD toD)
      exact_mod_cast jsRound_nonneg _ h2

/-- A concrete tracking document with two views of one item. -/
def docC5 : TrackingDoc where
  _id := .str 100
  visitorId := some 7
  country := none
  createdAt := some 0
  viewItems :=
    [⟨.str 200, some 0, none, none, false⟩,
     ⟨.str 200, some 1000, none, none, false⟩]
  cartItems := []
  wishlistItems := []

/-- Witness for C5 at concrete inputs: one session with two same-day
views (pipeline side) and the concrete tiny bundle (reprojection side). -/
theorem claim_C5_witness :
    (∀ row ∈ (transitionMatrixAndSankey
        [collectSessionEvents [] docC5] []).probs,
      (row.sum = 1 ∨ ∀ x ∈ row, x = 0) ∧ ∀ x ∈ row, 0 ≤ x ∧ x ≤ 1) ∧
    ∃ r, reprojectForDateRange tinyBundle 0 0 = some r ∧
      ∀ row ∈ r.transitions.probs,
        (row.sum = 1 ∨ ∀ x ∈ row, x = 0) ∧ ∀ x ∈ row, 0 ≤ x ∧ x ≤ 1 := by
  constructor
  · exact claim_C5_transition_rows.1 [collectSessionEvents [] docC5] []
  · have hs : (reprojectForDateRange tinyBundle 0 0).isSome = true := by decide
    obtain ⟨r, hr⟩ := Option.isSome_iff_exists.mp hs
    exact ⟨r, hr,
      claim_C5_transition_rows.2 tinyBundle 0 0 r hr (by decide)⟩

/-! ## C4: leak values -/

lemma ite_clamp01 (c : Prop) [Decidable c] (v : ℚ) :
    0 ≤ (if c then clampValue v 0 1 else 0) ∧
      (if c then clampValue v 0 1 else 0) ≤ 1 := by
  split
  · exact clamp01_bounds v
  · norm_num

/-- The cart-event accumulator of `leakAnalytics`. -/
def leakAcc0 (sessions : List Session) : LeakAcc :=
  sessions.foldl (fun a s => s.carts.foldl leakStep a) ⟨[], [], 0, 0⟩

/-- `leakAnalytics` unfolded over the named accumulator. -/
lemma leakAnalytics_eq (sessions : List Session)
    (itemMeta : List (Str × ItemMetaEntry)) :
    leakAnalytics sessions itemMeta =
      ⟨if 0 < (leakAcc0 sessions).tAdds then
          clampValue (((leakAcc0 sessions).tRem : ℚ) /
            ((leakAcc0 sessions).tAdds : ℚ)) 0 1
        else 0,
       List.insertionSort leakGe
        ((jsSetOfList ((leakAcc0 sessions).adds.map Prod.fst ++
            (leakAcc0 sessions).removes.map Prod.fst)).map fun key =>
          { item := key
            adds := (((mapGet (leakAcc0 sessions).adds key).getD 0 : ℕ) : ℚ)
            removes :=
              (((mapGet (leakAcc0 sessions).removes key).getD 0 : ℕ) : ℚ)
            leak :=
              if 0 < (mapGet (leakAcc0 sessions).adds key).getD 0 then
                clampValue
                  ((((mapGet (leakAcc0 sessions).removes key).getD 0 : ℕ) : ℚ) /
                    (((mapGet (leakAcc0 sessions).adds key).getD 0 : ℕ) : ℚ))
                  0 1
              else 0 })⟩ := rfl

/-- Both the overall leak and every row's leak of `leakAnalytics` are
clamped into `[0, 1]`. -/
lemma leakAnalytics_bounds (sessions : List Session)
    (itemMeta : List (Str × ItemMetaEntry)) :
    (0 ≤ (leakAnalytics sessions itemMeta).overall ∧
      (leakAnalytics sessions itemMeta).overall ≤ 1) ∧
    ∀ it ∈ (leakAnalytics sessions itemMeta).items,
      0 ≤ it.leak ∧ it.leak ≤ 1 := by
  rw [leakAnalytics_eq]
  constructor
  · exact ite_clamp01 _ _
  · intro it hit
    rcases List.mem_map.mp ((List.perm_insertionSort leakGe _).mem_iff.mp hit)
      with ⟨key, _, rfl⟩
    exact ite_clamp01 _ _

lemma leakStep_tAdds (a : LeakAcc) (e : SessionEvent) :
    (leakStep a e).tAdds = a.tAdds + e.add := by
  unfold leakStep
  by_cases h1 : e.add = 0 <;> by_cases h2 : e.remove = 0 <;> simp [h1, h2]

lemma foldl_leakStep_tAdds (evts : List SessionEvent) (a : LeakAcc) :
    (evts.foldl leakStep a).tAdds = a.tAdds + (evts.map SessionEvent.add).sum := by
  induction evts generalizing a with
  | nil => simp
  | cons e t ih =>
    rw [List.foldl_cons, ih, leakStep_tAdds, List.map_cons, List.sum_cons]
    omega

lemma sessions_fold_tAdds (sessions : List Session) (a : LeakAcc) :
    (sessions.foldl (fun a s => s.carts.foldl leakStep a) a).tAdds =
      a.tAdds + (sessions.map fun s => (s.carts.map SessionEvent.add).sum).sum := by
  induction sessions generalizing a with
  | nil => simp
  | cons s t ih =>
    rw [List.foldl_cons, ih, foldl_leakStep_tAdds, List.map_cons, List.sum_cons]
    omega

/-- When no cart-add event exists, the overall leak is the guard's `0`. -/
lemma leakAnalytics_overall_zero (sessions : List Session)
    (itemMeta : List (Str × ItemMetaEntry))
    (hz : (sessions.map fun s => (s.carts.map SessionEvent.add).sum).sum = 0) :
    (leakAnalytics sessions itemMeta).overall = 0 := by
  have ht : (leakAcc0 sessions).tAdds = 0 := by
    unfold leakAcc0
    rw [sessions_fold_tAdds]
    simpa using hz
  rw [leakAnalytics_eq, ht]
  simp

/-- C4 (amended): the full pipeline clamps every leak value — each row's
leak and the overall leak lie in `[0, 1]`, and the overall leak is `0`
when the bundle's total cart-adds are `0`.  A reprojection keeps the
overall leak in `[0, 1]` (given per-session `0 ≤ removes ≤ adds`, true of
engine sessions) and `0` when the range's cart-add total is `0`; its
per-row leak values, however, are NOT clamped and can exceed `1` (see the
counterexample). -/
theorem claim_C4_leak_bounds :
    (∀ (p : FloatPrims) (h : Heap) (docs : List TrackingDoc)
        (listings : List ListingDoc) (cats : List CategoryDoc)
        (b : AnalyticsResponse),
      b = computeAnalyticsFromDocs p h docs listings cats →
      (0 ≤ b.leak.overall ∧ b.leak.overall ≤ 1) ∧
      (∀ it ∈ b.leak.items, 0 ≤ it.leak ∧ it.leak ≤ 1) ∧
      ((b.sessions.map SessionOut.nCartAdd).sum = 0 →
        b.leak.overall = 0)) ∧
    (∀ (data : AnalyticsResponse) (fromD toD : ℤ) (r : AnalyticsResponse),
      reprojectForDateRange data fromD toD = some r →
      (∀ s ∈ data.sessions,
        0 ≤ s.nCartRemove ∧ s.nCartRemove ≤ s.nCartAdd) →
      (0 ≤ r.leak.overall ∧ r.leak.overall ≤ 1) ∧
      (rpTotalAdds data fromD toD = 0 → r.leak.overall = 0)) := by
  constructor
  · intro p h docs listings cats b hb
    subst hb
    have hleak : (computeAnalyticsFromDocs p h docs listings cats).leak =
        leakAnalytics (docs.map (collectSessionEvents h))
          (buildItemMeta h listings (buildCategoryMap h cats)) := rfl
    have hsess :
        (computeAnalyticsFromDocs p h docs listings cats).sessions =
          (docs.map (collectSessionEvents h)).map serializeSession := rfl
    refine ⟨?_, ?_, ?_⟩
    · rw [hleak]
      exact (leakAnalytics_bounds _ _).1
    · rw [hleak]
      exact (leakAnalytics_bounds _ _).2
    · intro hz
      rw [hsess, List.map_map] at hz
      have hz2 : (((docs.map (collectSessionEvents h)).map
          Session.nCartAdd).map fun n => ((n : ℕ) : ℚ)).sum = 0 := by
        rw [List.map_map]
        exact hz
      rw [← Nat.cast_list_sum, Nat.cast_eq_zero] at hz2
      rw [hleak]
      apply leakAnalytics_overall_zero
      have hcongr : (docs.map (collectSessionEvents h)).map
          (fun s => (s.carts.map SessionEvent.add).sum) =
          (docs.map (collectSessionEvents h)).map Session.nCartAdd := by
        apply List.map_congr_left
        intro s hs
        rcases List.mem_map.mp hs with ⟨d, _, rfl⟩
        rfl
      rw [hcongr, hz2]
  · intro data fromD toD r hr hmono
    by_cases hne : rpFiltered data fromD toD = []
    · rw [reprojectForDateRange, if_pos hne] at hr
      obtain rfl := (Option.some.inj hr).symm
      exact ⟨⟨le_refl 0, zero_le_one⟩, fun _ => rfl⟩
    · obtain ⟨aA, rA, cA, _, _, _, rfl⟩ :=
        (reproject_some_iff data fromD toD hne r).mp hr
      have hov : (reprojectWith data fromD toD aA rA cA).leak.overall =
          (if 0 < rpTotalAdds data fromD toD then
            rpTotalRemoves data fromD toD / rpTotalAdds data fromD toD
          else 0) := rfl
      have h0 : 0 ≤ rpTotalRemoves data fromD toD := by
        apply List.sum_nonneg
        intro x hx
        rcases List.mem_map.mp hx with ⟨s, hs, rfl⟩
        exact (hmono s (List.mem_of_mem_filter hs)).1
      have hle : rpTotalRemoves data fromD toD ≤ rpTotalAdds data fromD toD := by
        apply List.sum_le_sum
        intro s hs
        exact (hmono s (List.mem_of_mem_filter hs)).2
      constructor
      · rw [hov]
        by_cases hpos : 0 < rpTotalAdds data fromD toD
        · rw [if_pos hpos]
          exact ⟨div_nonneg h0 (le_of_lt hpos), (div_le_one hpos).mpr hle⟩
        · rw [if_neg hpos]
          norm_num
      · intro hz
        rw [hov, hz]
        simp

/-- A concrete document: three deleted cart entries of item `300` on day
`0` (three adds, three removes). -/
def docC4a : TrackingDoc where
  _id := .str 101
  visitorId := none
  country := none
  createdAt := some 0
  viewItems := []
  cartItems :=
    [⟨.str 300, some 0, none, some 0, true⟩,
     ⟨.str 300, some 0, none, some 0, true⟩,
     ⟨.str 300, some 0, none, some 0, true⟩]
  wishlistItems := []

/-- A concrete document on day `1`: two deleted cart entries of item
`300` and five plain cart entries of item `301`. -/
def docC4b : TrackingDoc where
  _id := .str 102
  visitorId := none
  country := none
  createdAt := some 86400000
  viewItems := []
  cartItems :=
    [⟨.str 300, some 86400000, none, some 86400000, true⟩,
     ⟨.str 300, some 86400000, none, some 86400000, true⟩,
     ⟨.str 301, some 86400000, none, none, false⟩,
     ⟨.str 301, some 86400000, none, none, false⟩,
     ⟨.str 301, some 86400000, none, none, false⟩,
     ⟨.str 301, some 86400000, none, none, false⟩,
     ⟨.str 301, some 86400000, none, none, false⟩]
  wishlistItems := []

/-- C4 counterexample: reprojecting the genuine two-day bundle of
`docC4a`/`docC4b` to day `0` hands item `300` three of the range's three
adds but also all three removes is wrong — it gets `3` removes against
`2` adds — so its reprojected leak value is `3/2 > 1`, though the same
bundle's full-pipeline leak values were clamped to `[0, 1]`. -/
theorem claim_C4_counterexample :
    (computeAnalyticsFromDocs ratPrims [] [docC4a, docC4b] [] []).leak.items.map
        (fun r => (r.item, r.adds, r.removes, r.leak)) =
      [(300, 5, 5, 1), (301, 5, 0, 0)] ∧
    (reprojectForDateRange
        (computeAnalyticsFromDocs ratPrims [] [docC4a, docC4b] [] []) 0 0).map
        (fun r => r.leak.items.map LeakItem.leak) = some [3 / 2, 0] ∧
    ¬ ((3 : ℚ) / 2 ≤ 1) := by
  refine ⟨by decide, by decide, by decide⟩

/-- Witness for C4 at concrete inputs: the one-document pipeline bundle
and the tiny bundle's full-range reprojection. -/
theorem claim_C4_witness :
    ((0 ≤ (computeAnalyticsFromDocs ratPrims [] [docC4a] [] []).leak.overall ∧
        (computeAnalyticsFromDocs ratPrims [] [docC4a] [] []).leak.overall ≤ 1) ∧
      (∀ it ∈ (computeAnalyticsFromDocs ratPrims [] [docC4a] [] []).leak.items,
        0 ≤ it.leak ∧ it.leak ≤ 1) ∧
      (((computeAnalyticsFromDocs ratPrims [] [docC4a] [] []).sessions.map
          SessionOut.nCartAdd).sum = 0 →
        (computeAnalyticsFromDocs ratPrims [] [docC4a] [] []).leak.overall = 0)) ∧
    ∃ r, reprojectForDateRange tinyBundle 0 0 = some r ∧
      (0 ≤ r.leak.overall ∧ r.leak.overall ≤ 1) ∧
      (rpTotalAdds tinyBundle 0 0 = 0 → r.leak.overall = 0) := by
  constructor
  · exact claim_C4_leak_bounds.1 ratPrims [] [docC4a] [] [] _ rfl
  · have hs : (reprojectForDateRange tinyBundle 0 0).isSome = true := by decide
    obtain ⟨r, hr⟩ := Option.isSome_iff_exists.mp hs
    exact ⟨r, hr, claim_C4_leak_bounds.2 tinyBundle 0 0 r hr (by decide)⟩

/-! ## C7: price-band rates -/

/-- The step function of `bandAccum`'s fold. -/
def bandStep (tLow tHigh : ℚ) (acc : BandAccs)
    (tr : TransitionEvent × TransitionEvent) : BandAccs :=
  let band := bandForPrice tLow tHigh tr.1.price
  let acc :=
    if tr.1.type = .view then
      let th := getTH acc band
      let th := { th with view := th.view + 1 }
      let th :=
        if tr.2.type = .cart_add then
          { th with viewCart := th.viewCart + 1 }
        else th
      setTH acc band th
    else acc
  if tr.1.type = .wishlist_add then
    let th := getTH acc band
    let th := { th with wish := th.wish + 1 }
    let th :=
      if tr.2.type = .cart_add then
        { th with wishCart := th.wishCart + 1 }
      else th
    setTH acc band th
  else acc

lemma bandAccum_eq (tLow tHigh : ℚ)
    (trs : List (TransitionEvent × TransitionEvent)) :
    bandAccum tLow tHigh trs =
      trs.foldl (bandStep tLow tHigh)
        ⟨⟨0, 0, 0, 0⟩, ⟨0, 0, 0, 0⟩, ⟨0, 0, 0, 0⟩, ⟨0, 0, 0, 0⟩⟩ := rfl

lemma getTH_setTH (acc : BandAccs) (b t : PriceTier) (th : BandTH) :
    getTH (setTH acc b th) t = if t = b then th else getTH acc t := by
  cases b <;> cases t <;> simp [getTH, setTH]

/-- One cart/wishlist counting step never pushes hits past totals. -/
lemma bandStep_inv (tLow tHigh : ℚ) (acc : BandAccs)
    (tr : TransitionEvent × TransitionEvent)
    (hinv : ∀ t, (getTH acc t).viewCart ≤ (getTH acc t).view ∧
      (getTH acc t).wishCart ≤ (getTH acc t).wish) :
    ∀ t, (getTH (bandStep tLow tHigh acc tr) t).viewCart ≤
        (getTH (bandStep tLow tHigh acc tr) t).view ∧
      (getTH (bandStep tLow tHigh acc tr) t).wishCart ≤
        (getTH (bandStep tLow tHigh acc tr) t).wish := by
  intro t
  obtain ⟨hb1, hb2⟩ := hinv (bandForPrice tLow tHigh tr.1.price)
  obtain ⟨ht1, ht2⟩ := hinv t
  unfold bandStep
  cases htype : tr.1.type <;>
    by_cases h3 : tr.2.type = EType.cart_add <;>
      simp only [htype, h3, reduceCtorEq, if_true, if_false, ite_true,
        ite_false, getTH_setTH] <;>
    first
      | exact ⟨ht1, ht2⟩
      | (split <;> (try simp_all) <;>
          (try exact le_trans (hinv _).1 (Nat.le_succ _)) <;>
          (try exact le_trans (hinv _).2 (Nat.le_succ _)) <;> omega)

lemma foldl_bandStep_inv (tLow tHigh : ℚ)
    (trs : List (TransitionEvent × TransitionEvent)) (a : BandAccs)
    (ha : ∀ t, (getTH a t).viewCart ≤ (getTH a t).view ∧
      (getTH a t).wishCart ≤ (getTH a t).wish) :
    ∀ t, (getTH (trs.foldl (bandStep tLow tHigh) a) t).viewCart ≤
        (getTH (trs.foldl (bandStep tLow tHigh) a) t).view ∧
      (getTH (trs.foldl (bandStep tLow tHigh) a) t).wishCart ≤
        (getTH (trs.foldl (bandStep tLow tHigh) a) t).wish := by
  induction trs generalizing a with
  | nil => exact ha
  | cons e rest ih =>
    rw [List.foldl_cons]
    exact ih _ (bandStep_inv tLow tHigh a e ha)

/-- In every accumulated band, hits never exceed totals. -/
lemma bandAccum_inv (tLow tHigh : ℚ)
    (trs : List (TransitionEvent × TransitionEvent)) :
    ∀ t, (getTH (bandAccum tLow tHigh trs) t).viewCart ≤
        (getTH (bandAccum tLow tHigh trs) t).view ∧
      (getTH (bandAccum tLow tHigh trs) t).wishCart ≤
        (getTH (bandAccum tLow tHigh trs) t).wish := by
  rw [bandAccum_eq]
  apply foldl_bandStep_inv
  intro t
  cases t <;> simp [getTH]

/-- A built band is Laplace-smoothed exactly when its totals are
non-zero, and its rate is the guard's `0` otherwise. -/
lemma mkBand_props (accs : BandAccs) (nm : PriceTier) (lo hi : ℚ)
    (hv : (getTH accs nm).viewCart ≤ (getTH accs nm).view)
    (hw : (getTH accs nm).wishCart ≤ (getTH accs nm).wish) :
    (((mkBand accs nm lo hi).nView = 0 →
        (mkBand accs nm lo hi).viewToCart = 0) ∧
      ((mkBand accs nm lo hi).nView ≠ 0 → ∃ k : ℕ,
        (k : ℚ) ≤ (mkBand accs nm lo hi).nView ∧
        (mkBand accs nm lo hi).viewToCart =
          ((k : ℚ) + 1) / ((mkBand accs nm lo hi).nView + 2))) ∧
    (((mkBand accs nm lo hi).nWish = 0 →
        (mkBand accs nm lo hi).wishToCart = 0) ∧
      ((mkBand accs nm lo hi).nWish ≠ 0 → ∃ k : ℕ,
        (k : ℚ) ≤ (mkBand accs nm lo hi).nWish ∧
        (mkBand accs nm lo hi).wishToCart =
          ((k : ℚ) + 1) / ((mkBand accs nm lo hi).nWish + 2))) := by
  have h1 : (mkBand accs nm lo hi).nView = ((getTH accs nm).view : ℚ) := rfl
  have h2 : (mkBand accs nm lo hi).nWish = ((getTH accs nm).wish : ℚ) := rfl
  have h3 : (mkBand accs nm lo hi).viewToCart =
      (if (getTH accs nm).view ≠ 0 then
        (((getTH accs nm).viewCart : ℚ) + 1) /
          (((getTH accs nm).view : ℚ) + 2 * 1)
      else 0) := rfl
  have h4 : (mkBand accs nm lo hi).wishToCart =
      (if (getTH accs nm).wish ≠ 0 then
        (((getTH accs nm).wishCart : ℚ) + 1) /
          (((getTH accs nm).wish : ℚ) + 2 * 1)
      else 0) := rfl
  rw [h1, h2, h3, h4]
  constructor
  · constructor
    · intro hz
      rw [Nat.cast_eq_zero] at hz
      simp [hz]
    · intro hnz
      have hnz2 : (getTH accs nm).view ≠ 0 := by
        intro h0
        rw [h0] at hnz
        exact hnz rfl
      refine ⟨(getTH accs nm).viewCart, by exact_mod_cast hv, ?_⟩
      rw [if_pos hnz2]
      norm_num
  · constructor
    · intro hz
      rw [Nat.cast_eq_zero] at hz
      simp [hz]
    · intro hnz
      have hnz2 : (getTH accs nm).wish ≠ 0 := by
        intro h0
        rw [h0] at hnz
        exact hnz rfl
      refine ⟨(getTH accs nm).wishCart, by exact_mod_cast hw, ?_⟩
      rw [if_pos hnz2]
      norm_num

/-- C7 (amended): a band's rates are Laplace-smoothed only when its
totals are non-zero — every emitted band with `nView ≠ 0` has
`viewToCart = (hits + 1) / (nView + 2)` for some hit count
`hits ≤ nView` (likewise for wishes), but a band with a zero total gets
rate `0` from the guard, not `1/2`, contrary to the claim's "zero-sample
bands do not produce a 0 rate". -/
theorem claim_C7_band_rates (p : FloatPrims)
    (itemMeta : List (Str × ItemMetaEntry))
    (transitions : List (TransitionEvent × TransitionEvent)) :
    ∀ b ∈ (priceBandsFromQuantiles p itemMeta transitions).bands,
      ((b.nView = 0 → b.viewToCart = 0) ∧
        (b.nView ≠ 0 → ∃ k : ℕ, (k : ℚ) ≤ b.nView ∧
          b.viewToCart = ((k : ℚ) + 1) / (b.nView + 2))) ∧
      ((b.nWish = 0 → b.wishToCart = 0) ∧
        (b.nWish ≠ 0 → ∃ k : ℕ, (k : ℚ) ≤ b.nWish ∧
          b.wishToCart = ((k : ℚ) + 1) / (b.nWish + 2))) := by
  intro b hb
  simp only [priceBandsFromQuantiles] at hb
  by_cases hp : metaPrices itemMeta = []
  · rw [if_pos hp] at hb
    have hb2 : b ∈ [(⟨.All, 0, 0, 0, 0, 0, 0⟩ : Band)] := hb
    obtain rfl := List.mem_singleton.mp hb2
    exact ⟨⟨fun _ => rfl, fun hc => absurd rfl hc⟩,
      ⟨fun _ => rfl, fun hc => absurd rfl hc⟩⟩
  · rw [if_neg hp] at hb
    rcases htl : (robustPriceSplits p (metaPrices itemMeta)).tLow with _ | tl
    · rw [htl] at hb
      have hb2 : b ∈ [(⟨.All,
          (robustPriceSplits p (metaPrices itemMeta)).dispMin,
          (robustPriceSplits p (metaPrices itemMeta)).dispMax,
          0, 0, 0, 0⟩ : Band)] := hb
      obtain rfl := List.mem_singleton.mp hb2
      exact ⟨⟨fun _ => rfl, fun hc => absurd rfl hc⟩,
        ⟨fun _ => rfl, fun hc => absurd rfl hc⟩⟩
    · rcases hth : (robustPriceSplits p (metaPrices itemMeta)).tHigh with _ | th
      · rw [htl, hth] at hb
        have hb2 : b ∈ [(⟨.All,
            (robustPriceSplits p (metaPrices itemMeta)).dispMin,
            (robustPriceSplits p (metaPrices itemMeta)).dispMax,
            0, 0, 0, 0⟩ : Band)] := hb
        obtain rfl := List.mem_singleton.mp hb2
        exact ⟨⟨fun _ => rfl, fun hc => absurd rfl hc⟩,
          ⟨fun _ => rfl, fun hc => absurd rfl hc⟩⟩
      · rw [htl, hth] at hb
        have hb2 : b ∈ (if tl < th then
            (⟨[mkBand (bandAccum tl th transitions) .Low
                (robustPriceSplits p (metaPrices itemMeta)).dispMin tl,
               mkBand (bandAccum tl th transitions) .Mid tl th,
               mkBand (bandAccum tl th transitions) .High th
                (robustPriceSplits p (metaPrices itemMeta)).dispMax]⟩ :
              PriceBands)
          else ⟨[⟨.All,
            (robustPriceSplits p (metaPrices itemMeta)).dispMin,
            (robustPriceSplits p (metaPrices itemMeta)).dispMax,
            0, 0, 0, 0⟩]⟩).bands := hb
        by_cases hlt : tl < th
        · rw [if_pos hlt] at hb2
          have hinv := bandAccum_inv tl th transitions
          have hb3 : b ∈ [mkBand (bandAccum tl th transitions) .Low
                (robustPriceSplits p (metaPrices itemMeta)).dispMin tl,
              mkBand (bandAccum tl th transitions) .Mid tl th,
              mkBand (bandAccum tl th transitions) .High th
                (robustPriceSplits p (metaPrices itemMeta)).dispMax] := hb2
          simp only [List.mem_cons, List.not_mem_nil, or_false] at hb3
          rcases hb3 with rfl | rfl | rfl
          · exact mkBand_props _ _ _ _ (hinv _).1 (hinv _).2
          · exact mkBand_props _ _ _ _ (hinv _).1 (hinv _).2
          · exact mkBand_props _ _ _ _ (hinv _).1 (hinv _).2
        · rw [if_neg hlt] at hb2
          have hb3 : b ∈ [(⟨.All,
              (robustPriceSplits p (metaPrices itemMeta)).dispMin,
              (robustPriceSplits p (metaPrices itemMeta)).dispMax,
              0, 0, 0, 0⟩ : Band)] := hb2
          obtain rfl := List.mem_singleton.mp hb3
          exact ⟨⟨fun _ => rfl, fun hc => absurd rfl hc⟩,
            ⟨fun _ => rfl, fun hc => absurd rfl hc⟩⟩

/-- Item metadata with four distinct prices, enough for real Low/Mid/High
split points. -/
def metaC7 : List (Str × ItemMetaEntry) :=
  [(10, ⟨0, 1, 0, 0⟩), (11, ⟨0, 2, 0, 0⟩), (12, ⟨0, 4, 0, 0⟩),
   (13, ⟨0, 8, 0, 0⟩)]

/-- C7 counterexample: with genuine three-way split points but no
transition events, all three emitted bands have zero view samples and a
`viewToCart` of `0` — not the claimed Laplace value `(0 + 1) / (0 + 2)`. -/
theorem claim_C7_counterexample :
    ((priceBandsFromQuantiles ratPrims metaC7 []).bands.map fun b =>
      (b.name, b.nView, b.viewToCart)) =
      [(.Low, 0, 0), (.Mid, 0, 0), (.High, 0, 0)] ∧
    ¬ ((0 : ℚ) = (0 + 1) / (0 + 2)) := by
  refine ⟨by decide, by decide⟩

/-- Witness for C7 at a concrete input: the single all-zero `All` band of
an empty catalogue satisfies the amended description. -/
theorem claim_C7_witness :
    (⟨.All, 0, 0, 0, 0, 0, 0⟩ : Band) ∈
      (priceBandsFromQuantiles ratPrims [] []).bands ∧
    ((((⟨.All, 0, 0, 0, 0, 0, 0⟩ : Band).nView = 0 →
        (⟨.All, 0, 0, 0, 0, 0, 0⟩ : Band).viewToCart = 0) ∧
      ((⟨.All, 0, 0, 0, 0, 0, 0⟩ : Band).nView ≠ 0 → ∃ k : ℕ,
        (k : ℚ) ≤ (⟨.All, 0, 0, 0, 0, 0, 0⟩ : Band).nView ∧
        (⟨.All, 0, 0, 0, 0, 0, 0⟩ : Band).viewToCart =
          ((k : ℚ) + 1) / ((⟨.All, 0, 0, 0, 0, 0, 0⟩ : Band).nView + 2))) ∧
     (((⟨.All, 0, 0, 0, 0, 0, 0⟩ : Band).nWish = 0 →
        (⟨.All, 0, 0, 0, 0, 0, 0⟩ : Band).wishToCart = 0) ∧
      ((⟨.All, 0, 0, 0, 0, 0, 0⟩ : Band).nWish ≠ 0 → ∃ k : ℕ,
        (k : ℚ) ≤ (⟨.All, 0, 0, 0, 0, 0, 0⟩ : Band).nWish ∧
        (⟨.All, 0, 0, 0, 0, 0, 0⟩ : Band).wishToCart =
          ((k : ℚ) + 1) /
            ((⟨.All, 0, 0, 0, 0, 0, 0⟩ : Band).nWish + 2)))) := by
  have hm : (⟨.All, 0, 0, 0, 0, 0, 0⟩ : Band) ∈
      (priceBandsFromQuantiles ratPrims [] []).bands := by decide
  exact ⟨hm, claim_C7_band_rates ratPrims [] [] _ hm⟩

/-! ## C3: recommendation symmetry -/

lemma mapGet_mapSet {K V : Type} [DecidableEq K] (m : List (K × V))
    (k k' : K) (v : V) :
    mapGet (mapSet m k v) k' = if k' = k then some v else mapGet m k' := by
  induction m with
  | nil =>
    by_cases h : k' = k
    · subst h
      simp [mapSet, mapGet]
    · simp [mapSet, mapGet, h, Ne.symm h]
  | cons kv t ih =>
    obtain ⟨k0, v0⟩ := kv
    by_cases h0 : k0 = k
    · subst h0
      by_cases h : k' = k0
      · subst h
        simp [mapSet, mapGet]
      · simp [mapSet, mapGet, h, Ne.symm h]
    · by_cases h : k' = k0
      · subst h
        simp [mapSet, mapGet, h0]
      · simp [mapSet, mapGet, h0, h, Ne.symm h, ih]

/-- The step function of `recosRawOf`'s fold. -/
def recoStep (p : FloatPrims) (freq : List (Str × ℕ))
    (acc : List (Str × List (Str × ℚ))) (kv : (Str × Str) × ℕ) :
    List (Str × List (Str × ℚ)) :=
  let a := kv.1.1
  let b := kv.1.2
  let score := (kv.2 : ℚ) /
    p.sqrt ((((mapGet freq a).getD 1 : ℕ) : ℚ) *
      (((mapGet freq b).getD 1 : ℕ) : ℚ))
  let acc := mapSet acc a ((mapGet acc a).getD [] ++ [(b, score)])
  mapSet acc b ((mapGet acc b).getD [] ++ [(a, score)])

lemma recosRawOf_eq (p : FloatPrims) (pairs : List ((Str × Str) × ℕ))
    (freq : List (Str × ℕ)) :
    recosRawOf p pairs freq = pairs.foldl (recoStep p freq) [] := rfl

/-- One pair step adds matching mirrored entries, preserving symmetry of
the per-item lists. -/
lemma recoStep_sym (p : FloatPrims) (freq : List (Str × ℕ))
    (acc : List (Str × List (Str × ℚ))) (kv : (Str × Str) × ℕ)
    (hP : ∀ a b s, (b, s) ∈ (mapGet acc a).getD [] ↔
      (a, s) ∈ (mapGet acc b).getD []) :
    ∀ a b s, (b, s) ∈ (mapGet (recoStep p freq acc kv) a).getD [] ↔
      (a, s) ∈ (mapGet (recoStep p freq acc kv) b).getD [] := by
  intro a b s
  unfold recoStep
  simp only [mapGet_mapSet]
  by_cases h1 : a = kv.1.1 <;> by_cases h2 : a = kv.1.2 <;>
    by_cases h3 : b = kv.1.1 <;> by_cases h4 : b = kv.1.2 <;>
      simp_all [List.mem_append, hP]

lemma foldl_recoStep_sym (p : FloatPrims) (freq : List (Str × ℕ))
    (pairs : List ((Str × Str) × ℕ)) (acc : List (Str × List (Str × ℚ)))
    (hP : ∀ a b s, (b, s) ∈ (mapGet acc a).getD [] ↔
      (a, s) ∈ (mapGet acc b).getD []) :
    ∀ a b s, (b, s) ∈ (mapGet (pairs.foldl (recoStep p freq) acc) a).getD [] ↔
      (a, s) ∈ (mapGet (pairs.foldl (recoStep p freq) acc) b).getD [] := by
  induction pairs generalizing acc with
  | nil => exact hP
  | cons e rest ih =>
    rw [List.foldl_cons]
    exact ih _ (recoStep_sym p freq acc e hP)

/-- The raw (pre-truncation) recommendation lists are symmetric with
identical scores. -/
lemma recosRawOf_sym (p : FloatPrims) (pairs : List ((Str × Str) × ℕ))
    (freq : List (Str × ℕ)) :
    ∀ a b s, (b, s) ∈ (mapGet (recosRawOf p pairs freq) a).getD [] ↔
      (a, s) ∈ (mapGet (recosRawOf p pairs freq) b).getD [] := by
  rw [recosRawOf_eq]
  apply foldl_recoStep_sym
  intro a b s
  simp [mapGet]

lemma mapGet_recos (l : List (Str × List (Str × ℚ))) (k : Str) :
    mapGet (l.map fun kv =>
        (kv.1, (List.insertionSort scoreGe kv.2).take 10)) k =
      (mapGet l k).map fun v => (List.insertionSort scoreGe v).take 10 := by
  induction l with
  | nil => simp [mapGet]
  | cons kv t ih =>
    by_cases h : kv.1 = k <;> simp [mapGet, h, ih]

/-- C3 (amended): the raw per-item score lists are symmetric — `A`'s list
holds `(B, s)` exactly when `B`'s holds `(A, s)` — and every entry of an
emitted (sorted, top-10-truncated) list appears in the partner's RAW
list; but the emitted lists themselves need not be symmetric, because the
top-10 cut can keep `B` in `A`'s list while `A` falls below `B`'s ten
best partners (see the counterexample). -/
theorem claim_C3_reco_symmetry (p : FloatPrims) (sessions : List Session)
    (a b : Str) (s : ℚ) :
    ((b, s) ∈ (mapGet (recosRawOf p (cooccurrenceMaps sessions).1
        (cooccurrenceMaps sessions).2) a).getD [] ↔
      (a, s) ∈ (mapGet (recosRawOf p (cooccurrenceMaps sessions).1
        (cooccurrenceMaps sessions).2) b).getD []) ∧
    ((b, s) ∈ (mapGet (cooccurrenceRecos p sessions).recos a).getD [] →
      (a, s) ∈ (mapGet (recosRawOf p (cooccurrenceMaps sessions).1
        (cooccurrenceMaps sessions).2) b).getD []) := by
  constructor
  · exact recosRawOf_sym p _ _ a b s
  · intro hmem
    have hrec : (cooccurrenceRecos p sessions).recos =
        (recosRawOf p (cooccurrenceMaps sessions).1
          (cooccurrenceMaps sessions).2).map fun kv =>
          (kv.1, (List.insertionSort scoreGe kv.2).take 10) := rfl
    rw [hrec, mapGet_recos] at hmem
    rcases hget : mapGet (recosRawOf p (cooccurrenceMaps sessions).1
        (cooccurrenceMaps sessions).2) a with _ | v
    · rw [hget] at hmem
      simp at hmem
    · rw [hget] at hmem
      have hv : (b, s) ∈ v := (List.perm_insertionSort scoreGe v).mem_iff.mp
        (List.take_subset _ _ hmem)
      have hraw : (b, s) ∈ (mapGet (recosRawOf p
          (cooccurrenceMaps sessions).1
          (cooccurrenceMaps sessions).2) a).getD [] := by
        rw [hget]
        exact hv
      exact (recosRawOf_sym p _ _ a b s).mp hraw

/-- A tracking document that only views the given items once each. -/
def docOfItems (id : ℕ) (items : List ℕ) : TrackingDoc where
  _id := .str id
  visitorId := none
  country := none
  createdAt := some 0
  viewItems := items.map fun it => ⟨.str it, some 0, none, none, false⟩
  cartItems := []
  wishlistItems := []

/-- Fifty documents: item `1` co-occurs once with item `2` (frequencies 4
and 25), items `10`–`20` co-occur twice each with item `2` (frequency 4
each), so the pair scores are `1/√100 = 1/10` and `2/√100 = 2/10`. -/
def docsC3 : List TrackingDoc :=
  [docOfItems 500 [1, 2], docOfItems 501 [1], docOfItems 502 [1],
   docOfItems 503 [1]] ++
  ((List.range 11).flatMap fun i =>
    [docOfItems (510 + i) [2, 10 + i], docOfItems (530 + i) [2, 10 + i]]) ++
  [docOfItems 551 [2], docOfItems 552 [2]] ++
  ((List.range 11).flatMap fun i =>
    [docOfItems (560 + i) [10 + i], docOfItems (580 + i) [10 + i]])

/-- C3 counterexample: in the engine bundle of `docsC3`, item `1`
recommends item `2` (score `1/10`), but item `2`'s emitted list is ten
items `10`–`19` of score `2/10` — item `1` was cut by the top-10
truncation, so the emitted recommendations are not symmetric. -/
theorem claim_C3_counterexample :
    (mapGet (computeAnalyticsFromDocs ratPrims [] docsC3 [] []).recos
        1).getD [] = [(2, 1 / 10)] ∧
    ((mapGet (computeAnalyticsFromDocs ratPrims [] docsC3 [] []).recos
        2).getD []).map Prod.fst =
      [10, 11, 12, 13, 14, 15, 16, 17, 18, 19] ∧
    1 ∉ ((mapGet (computeAnalyticsFromDocs ratPrims [] docsC3 [] []).recos
        2).getD []).map Prod.fst := by
  refine ⟨by decide, by decide, by decide⟩

/-- Witness for C3 at concrete inputs: the symmetric raw entries of the
`docsC3` sessions for the pair `(1, 2)` at score `1/10`. -/
theorem claim_C3_witness :
    ((2, (1 : ℚ) / 10) ∈ (mapGet (recosRawOf ratPrims
        (cooccurrenceMaps (docsC3.map (collectSessionEvents []))).1
        (cooccurrenceMaps (docsC3.map (collectSessionEvents []))).2)
        1).getD [] ↔
      (1, (1 : ℚ) / 10) ∈ (mapGet (recosRawOf ratPrims
        (cooccurrenceMaps (docsC3.map (collectSessionEvents []))).1
        (cooccurrenceMaps (docsC3.map (collectSessionEvents []))).2)
        2).getD []) ∧
    ((2, (1 : ℚ) / 10) ∈ (mapGet (cooccurrenceRecos ratPrims
        (docsC3.map (collectSessionEvents []))).recos 1).getD [] →
      (1, (1 : ℚ) / 10) ∈ (mapGet (recosRawOf ratPrims
        (cooccurrenceMaps (docsC3.map (collectSessionEvents []))).1
        (cooccurrenceMaps (docsC3.map (collectSessionEvents []))).2)
        2).getD []) :=
  claim_C3_reco_symmetry ratPrims (docsC3.map (collectSessionEvents []))
    1 2 (1 / 10)

/-! ## C8: cart-add totals agree across views -/

lemma foldl_bumpStep_none (ord : List (ℕ × ℚ)) (l : List ℕ) :
    l.foldl (bumpStep ord) none = none := by
  induction l with
  | nil => rfl
  | cons k t ih => exact ih

/-- On the empty weight vector the call only returns when no bump step
runs: the result is `[]` and the loop bound is `0`. -/
lemma dtt_nil (T : ℚ) (out : List ℤ)
    (h : distributeToTotal T [] = some out) :
    out = [] ∧ ⌈T⌉.toNat = 0 := by
  have hrem : dttRem T [] = T := by
    simp [dttRem, dttBase, dttRaw, dttNonneg]
  by_cases hN : ⌈dttRem T []⌉.toNat = 0
  · rw [distributeToTotal, hN] at h
    have h0 : some (dttBase T []) = some out := h
    refine ⟨(Option.some.inj h0).symm.trans rfl, ?_⟩
    rwa [hrem] at hN
  · exfalso
    obtain ⟨N, hN'⟩ : ∃ N, ⌈dttRem T []⌉.toNat = N + 1 :=
      ⟨⌈dttRem T []⌉.toNat - 1, by omega⟩
    rw [distributeToTotal, hN', List.range_succ_eq_map, List.foldl_cons] at h
    have h0 : bumpStep (remOrder (dttRaw T [])) (some (dttBase T [])) 0 =
        none := rfl
    rw [h0, foldl_bumpStep_none] at h
    exact Option.noConfusion h

/-- Every successful run at a natural target returns a vector of the
weights' length summing exactly to the target. -/
lemma dtt_some_sum (n : ℕ) (ws : List ℚ) (out : List ℤ)
    (h : distributeToTotal ((n : ℕ) : ℚ) ws = some out) :
    out.sum = (n : ℤ) ∧ out.length = ws.length := by
  by_cases hne : ws = []
  · subst hne
    obtain ⟨ho, hz⟩ := dtt_nil _ _ h
    subst ho
    have hceil : ⌈((n : ℕ) : ℚ)⌉ = (n : ℤ) := by
      rw [Int.ceil_natCast]
    rw [hceil] at hz
    have hn0 : n = 0 := by omega
    subst hn0
    exact ⟨rfl, rfl⟩
  · obtain ⟨out', hout, hlen, _, hsum⟩ :=
      dtt_sum_int (n : ℤ) ws hne (Int.ofNat_nonneg n)
    have hcast : (((n : ℤ)) : ℚ) = ((n : ℕ) : ℚ) := by push_cast; ring
    rw [hcast] at hout
    obtain rfl : out' = out := Option.some.inj (hout.symm.trans h)
    exact ⟨hsum, hlen⟩

lemma sum_range_getD (xs : List ℤ) :
    ((List.range xs.length).map fun i => xs.getD i 0).sum = xs.sum := by
  induction xs with
  | nil => simp
  | cons x t ih =>
    rw [List.length_cons, List.range_succ_eq_map, List.map_cons,
      List.map_map, List.sum_cons]
    have hcomp : ((fun i => (x :: t).getD i 0) ∘ Nat.succ) =
        fun i => t.getD i 0 := by
      funext i
      simp [List.getD_cons_succ]
    rw [hcomp, ih]
    simp [List.getD_cons_zero]

/-- Summing `alloc[i]` over the positions of an enumerated list of the
allocation's length recovers the allocation's sum. -/
lemma enum_map_getD_sum {α : Type} (l : List α) (xs : List ℤ)
    (hlen : xs.length = l.length) :
    (l.enum.map fun ir => xs.getD ir.1 0).sum = xs.sum := by
  have h1 : (l.enum.map fun ir => xs.getD ir.1 0) =
      (l.enum.map Prod.fst).map fun i => xs.getD i 0 := by
    rw [List.map_map]
    rfl
  rw [h1, List.enum_map_fst, ← hlen, sum_range_getD]

lemma enum_map_cast_getD_sum {α : Type} (l : List α) (xs : List ℤ)
    (hlen : xs.length = l.length) :
    (l.enum.map fun ir => ((xs.getD ir.1 0 : ℤ) : ℚ)).sum =
      ((xs.sum : ℤ) : ℚ) := by
  have h1 : (l.enum.map fun ir => ((xs.getD ir.1 0 : ℤ) : ℚ)) =
      (l.enum.map fun ir => xs.getD ir.1 0).map fun z => ((z : ℤ) : ℚ) := by
    rw [List.map_map]
    rfl
  rw [h1, ← Int.cast_list_sum, enum_map_getD_sum l xs hlen]

/-- C8: whenever a reprojection matches at least one session (and the
range's cart-add total is the natural number it is for engine sessions),
the reprojected category-interaction `carts` fields and the reprojected
leak-item `adds` fields each sum exactly to the filtered sessions'
`nCartAdd` total: the two views agree on the cart-add axis. -/
theorem claim_C8_cart_totals (data : AnalyticsResponse) (fromD toD : ℤ)
    (r : AnalyticsResponse)
    (hne : rpFiltered data fromD toD ≠ [])
    (hr : reprojectForDateRange data fromD toD = some r)
    (hnat : ∃ n : ℕ, rpTotalAdds data fromD toD = ((n : ℕ) : ℚ)) :
    ((rpFiltered data fromD toD).map SessionOut.nCartAdd).sum =
      rpTotalAdds data fromD toD ∧
    (r.leak.items.map LeakItem.adds).sum = rpTotalAdds data fromD toD ∧
    (r.categoryInteractions.map CatRow.carts).sum =
      rpTotalAdds data fromD toD := by
  obtain ⟨n, hn⟩ := hnat
  obtain ⟨aA, rA, cA, hA, hB, hC, rfl⟩ :=
    (reproject_some_iff data fromD toD hne r).mp hr
  rw [hn] at hA hC
  obtain ⟨hsumA, hlenA⟩ := dtt_some_sum n _ aA hA
  obtain ⟨hsumC, hlenC⟩ := dtt_some_sum n _ cA hC
  refine ⟨rfl, ?_, ?_⟩
  · have hitems : (reprojectWith data fromD toD aA rA cA).leak.items.map
        LeakItem.adds =
        (List.insertionSort leakGe (data.leak.items.enum.map fun ir =>
          ({ item := ir.2.item
             adds := ((aA.getD ir.1 0 : ℤ) : ℚ)
             removes := ((rA.getD ir.1 0 : ℤ) : ℚ)
             leak := if 0 < ((aA.getD ir.1 0 : ℤ) : ℚ) then
                 ((rA.getD ir.1 0 : ℤ) : ℚ) / ((aA.getD ir.1 0 : ℤ) : ℚ)
               else 0 } : LeakItem))).map LeakItem.adds := rfl
    rw [hitems, ((List.perm_insertionSort leakGe _).map LeakItem.adds).sum_eq,
      List.map_map]
    have hfun : (LeakItem.adds ∘ fun ir : ℕ × LeakItem =>
        ({ item := ir.2.item
           adds := ((aA.getD ir.1 0 : ℤ) : ℚ)
           removes := ((rA.getD ir.1 0 : ℤ) : ℚ)
           leak := if 0 < ((aA.getD ir.1 0 : ℤ) : ℚ) then
               ((rA.getD ir.1 0 : ℤ) : ℚ) / ((aA.getD ir.1 0 : ℤ) : ℚ)
             else 0 } : LeakItem)) =
        fun ir : ℕ × LeakItem => ((aA.getD ir.1 0 : ℤ) : ℚ) := rfl
    rw [hfun, enum_map_cast_getD_sum _ _
      (by rw [hlenA, List.length_map]), hsumA, hn]
    push_cast
    ring
  · have hcats : (reprojectWith data fromD toD aA rA cA).categoryInteractions.map
        CatRow.carts =
        (List.insertionSort catGe (data.categoryInteractions.enum.map fun ic =>
          { ic.2 with
            views := ((jsRound ((data.categoryInteractions.map
                CatRow.views).getD ic.1 0 * rpScale data fromD toD) : ℤ) : ℚ)
            wish := ((jsRound ((data.categoryInteractions.map
                CatRow.wish).getD ic.1 0 * rpScale data fromD toD) : ℤ) : ℚ)
            carts := ((cA.getD ic.1 0 : ℤ) : ℚ)
            total := ((jsRound ((data.categoryInteractions.map
                CatRow.views).getD ic.1 0 * rpScale data fromD toD) : ℤ) : ℚ) +
              ((jsRound ((data.categoryInteractions.map
                CatRow.wish).getD ic.1 0 * rpScale data fromD toD) : ℤ) : ℚ) +
              ((cA.getD ic.1 0 : ℤ) : ℚ) })).map CatRow.carts := rfl
    rw [hcats, ((List.perm_insertionSort catGe _).map CatRow.carts).sum_eq,
      List.map_map]
    have hfun : (CatRow.carts ∘ fun ic : ℕ × CatRow =>
        { ic.2 with
          views := ((jsRound ((data.categoryInteractions.map
              CatRow.views).getD ic.1 0 * rpScale data fromD toD) : ℤ) : ℚ)
          wish := ((jsRound ((data.categoryInteractions.map
              CatRow.wish).getD ic.1 0 * rpScale data fromD toD) : ℤ) : ℚ)
          carts := ((cA.getD ic.1 0 : ℤ) : ℚ)
          total := ((jsRound ((data.categoryInteractions.map
              CatRow.views).getD ic.1 0 * rpScale data fromD toD) : ℤ) : ℚ) +
            ((jsRound ((data.categoryInteractions.map
              CatRow.wish).getD ic.1 0 * rpScale data fromD toD) : ℤ) : ℚ) +
            ((cA.getD ic.1 0 : ℤ) : ℚ) }) =
        fun ic : ℕ × CatRow => ((cA.getD ic.1 0 : ℤ) : ℚ) := rfl
    rw [hfun, enum_map_cast_getD_sum _ _
      (by rw [hlenC, List.length_map]), hsumC, hn]
    push_cast
    ring

/-- Witness for C8 at a concrete input: the tiny bundle reprojected to
its own (zero-cart-add) day. -/
theorem claim_C8_witness :
    rpFiltered tinyBundle 0 0 ≠ [] ∧
    ∃ r, reprojectForDateRange tinyBundle 0 0 = some r ∧
      ((rpFiltered tinyBundle 0 0).map SessionOut.nCartAdd).sum =
        rpTotalAdds tinyBundle 0 0 ∧
      (r.leak.items.map LeakItem.adds).sum = rpTotalAdds tinyBundle 0 0 ∧
      (r.categoryInteractions.map CatRow.carts).sum =
        rpTotalAdds tinyBundle 0 0 := by
  have hne : rpFiltered tinyBundle 0 0 ≠ [] := by decide
  have hs : (reprojectForDateRange tinyBundle 0 0).isSome = true := by decide
  obtain ⟨r, hr⟩ := Option.isSome_iff_exists.mp hs
  exact ⟨hne, r, hr,
    claim_C8_cart_totals tinyBundle 0 0 r hne hr ⟨0, by decide⟩⟩

/-! ## C2: full-range reprojection -/

lemma jsRound_intCast (m : ℤ) : jsRound ((m : ℤ) : ℚ) = m := by
  rw [jsRound, Int.floor_eq_iff]
  constructor <;> norm_num

lemma jsRound_natCast (k : ℕ) : jsRound ((k : ℕ) : ℚ) = (k : ℤ) := by
  have h := jsRound_intCast (k : ℤ)
  rwa [Int.cast_natCast] at h

lemma scaleArray_one (arr : List ℚ) : scaleArray 1 arr = arr := by
  rw [scaleArray, mul_one, jsRound_natCast, Int.toNat_natCast]
  exact List.take_length arr

/-- Rebuilding the links from the counts while dropping self-loops is
filtering the pipeline's full link list. -/
lemma sankeyNoSelf_eq_filter (cm : List (List ℚ)) :
    sankeyLinksNoSelf cm =
      (sankeyLinksAll cm).filter fun l => decide (l.source ≠ l.target) := by
  rw [sankeyLinksNoSelf, sankeyLinksAll, List.filter_flatMap]
  congr 1
  funext ir
  rw [List.filter_filterMap]
  congr 1
  funext jv
  by_cases h1 : 0 < jv.2 <;> by_cases h2 : ir.1 ≠ jv.1 <;>
    simp [h1, h2, Option.filter]

lemma dttNonneg_natCasts (ks : List ℕ) :
    dttNonneg (ks.map fun k => ((k : ℕ) : ℚ)) =
      ks.map fun k => ((k : ℕ) : ℚ) := by
  rw [dttNonneg, List.map_map]
  apply List.map_congr_left
  intro k _
  simp only [Function.comp_apply]
  split
  · rfl
  · next h =>
    have h0 : ((k : ℕ) : ℚ) = 0 := le_antisymm (not_lt.mp h) (by positivity)
    rw [h0]

/-- On non-negative integer weights summing to the target, the
largest-remainder allocation returns exactly the weights. -/
lemma dtt_exact (ks : List ℕ) :
    distributeToTotal ((ks.sum : ℕ) : ℚ) (ks.map fun k => ((k : ℕ) : ℚ)) =
      some (ks.map fun k => ((k : ℕ) : ℤ)) := by
  have hnn := dttNonneg_natCasts ks
  have hsum_ws : (ks.map fun k => ((k : ℕ) : ℚ)).sum = ((ks.sum : ℕ) : ℚ) :=
    (Nat.cast_list_sum ks).symm
  have hbase : dttBase ((ks.sum : ℕ) : ℚ) (ks.map fun k => ((k : ℕ) : ℚ)) =
      ks.map fun k => ((k : ℕ) : ℤ) := by
    rw [dttBase, dttRaw, hnn, List.map_map, List.map_map]
    apply List.map_congr_left
    intro k hk
    simp only [Function.comp_apply]
    by_cases h0 : ks.sum = 0
    · have hk0 : k = 0 := List.sum_eq_zero_iff.mp h0 k hk
      subst hk0
      simp
    · have hTne : ((ks.sum : ℕ) : ℚ) ≠ 0 := Nat.cast_ne_zero.mpr h0
      have hSeq : dttS (ks.map fun k => ((k : ℕ) : ℚ)) = ((ks.sum : ℕ) : ℚ) := by
        rw [dttS, hnn, if_neg]
        · exact hsum_ws
        · rw [hsum_ws]
          exact hTne
      rw [hSeq, div_mul_cancel₀ _ hTne]
      exact Int.floor_natCast k
  have hzsum : (ks.map fun k => ((k : ℕ) : ℤ)).sum = ((ks.sum : ℕ) : ℤ) :=
    (Nat.cast_list_sum ks).symm
  have hrem : ⌈dttRem ((ks.sum : ℕ) : ℚ) (ks.map fun k => ((k : ℕ) : ℚ))⌉.toNat
      = 0 := by
    rw [dttRem, hbase, hzsum]
    rw [Int.cast_natCast, sub_self]
    simp
  rw [distributeToTotal, hrem, hbase]
  rfl

/-- Rebuilding each leak row from the exact allocations reproduces it. -/
lemma enum_map_rebuild_leak (items : List LeakItem) (ks kr : List ℕ)
    (hks : items.map LeakItem.adds = ks.map fun k => ((k : ℕ) : ℚ))
    (hkr : items.map LeakItem.removes = kr.map fun k => ((k : ℕ) : ℚ))
    (hleakrow : ∀ it ∈ items,
      it.leak = if 0 < it.adds then it.removes / it.adds else 0) :
    (items.enum.map fun ir =>
      ({ item := ir.2.item
         adds := (((ks.map fun k => ((k : ℕ) : ℤ)).getD ir.1 0 : ℤ) : ℚ)
         removes := (((kr.map fun k => ((k : ℕ) : ℤ)).getD ir.1 0 : ℤ) : ℚ)
         leak := if 0 <
             (((ks.map fun k => ((k : ℕ) : ℤ)).getD ir.1 0 : ℤ) : ℚ) then
             (((kr.map fun k => ((k : ℕ) : ℤ)).getD ir.1 0 : ℤ) : ℚ) /
               (((ks.map fun k => ((k : ℕ) : ℤ)).getD ir.1 0 : ℤ) : ℚ)
           else 0 } : LeakItem)) = items := by
  have hlks : ks.length = items.length := by
    have h := congrArg List.length hks
    simpa using h.symm
  have hlkr : kr.length = items.length := by
    have h := congrArg List.length hkr
    simpa using h.symm
  have h1 : ∀ ir ∈ items.enum,
      ({ item := ir.2.item
         adds := (((ks.map fun k => ((k : ℕ) : ℤ)).getD ir.1 0 : ℤ) : ℚ)
         removes := (((kr.map fun k => ((k : ℕ) : ℤ)).getD ir.1 0 : ℤ) : ℚ)
         leak := if 0 <
             (((ks.map fun k => ((k : ℕ) : ℤ)).getD ir.1 0 : ℤ) : ℚ) then
             (((kr.map fun k => ((k : ℕ) : ℤ)).getD ir.1 0 : ℤ) : ℚ) /
               (((ks.map fun k => ((k : ℕ) : ℤ)).getD ir.1 0 : ℤ) : ℚ)
           else 0 } : LeakItem) = Prod.snd ir := by
    intro ir hir
    have hm := List.mem_enum_iff_getElem?.mp hir
    have hi : ir.1 < items.length := by
      by_contra hge
      rw [List.getElem?_eq_none (le_of_not_lt hge)] at hm
      exact Option.noConfusion hm
    rw [List.getElem?_eq_getElem hi] at hm
    have h2 : items[ir.1] = ir.2 := Option.some.inj hm
    have hmem : ir.2 ∈ items := by
      rw [← h2]
      exact List.getElem_mem hi
    have hgA : (ks.map fun k => ((k : ℕ) : ℤ)).getD ir.1 0 =
        ((ks.getD ir.1 0 : ℕ) : ℤ) := List.getD_map ks 0 _
    have hgR : (kr.map fun k => ((k : ℕ) : ℤ)).getD ir.1 0 =
        ((kr.getD ir.1 0 : ℕ) : ℤ) := List.getD_map kr 0 _
    have hvA : ((ks.getD ir.1 0 : ℕ) : ℚ) = ir.2.adds := by
      have hc := congrArg (fun l => l.getD ir.1 (0 : ℚ)) hks
      simp only at hc
      rw [List.getD_eq_getElem _ _ (by rw [List.length_map]; exact hi),
        List.getElem_map] at hc
      rw [List.getD_eq_getElem _ _
          (by rw [List.length_map, hlks]; exact hi),
        List.getElem_map] at hc
      rw [h2] at hc
      rw [List.getD_eq_getElem _ _ (by rw [hlks]; exact hi)]
      exact hc.symm
    have hvR : ((kr.getD ir.1 0 : ℕ) : ℚ) = ir.2.removes := by
      have hc := congrArg (fun l => l.getD ir.1 (0 : ℚ)) hkr
      simp only at hc
      rw [List.getD_eq_getElem _ _ (by rw [List.length_map]; exact hi),
        List.getElem_map] at hc
      rw [List.getD_eq_getElem _ _
          (by rw [List.length_map, hlkr]; exact hi),
        List.getElem_map] at hc
      rw [h2] at hc
      rw [List.getD_eq_getElem _ _ (by rw [hlkr]; exact hi)]
      exact hc.symm
    have hcA : (((ks.map fun k => ((k : ℕ) : ℤ)).getD ir.1 0 : ℤ) : ℚ) =
        ir.2.adds := by
      rw [hgA, Int.cast_natCast]
      exact hvA
    have hcR : (((kr.map fun k => ((k : ℕ) : ℤ)).getD ir.1 0 : ℤ) : ℚ) =
        ir.2.removes := by
      rw [hgR, Int.cast_natCast]
      exact hvR
    rw [hcA, hcR, ← hleakrow ir.2 hmem]
  rw [List.map_congr_left h1, List.enum_map_snd]

/-- Rebuilding each category row from the exact cart allocation and
unit-scaled view/wish counts reproduces it. -/
lemma enum_map_rebuild_cat (cats : List CatRow) (kc : List ℕ)
    (hkc : cats.map CatRow.carts = kc.map fun k => ((k : ℕ) : ℚ))
    (hvw : ∀ c ∈ cats, (∃ k : ℕ, c.views = ((k : ℕ) : ℚ)) ∧
      ∃ k : ℕ, c.wish = ((k : ℕ) : ℚ))
    (htot : ∀ c ∈ cats, c.total = c.views + c.wish + c.carts) :
    (cats.enum.map fun ic =>
      { ic.2 with
        views := ((jsRound ((cats.map CatRow.views).getD ic.1 0) : ℤ) : ℚ)
        wish := ((jsRound ((cats.map CatRow.wish).getD ic.1 0) : ℤ) : ℚ)
        carts := (((kc.map fun k => ((k : ℕ) : ℤ)).getD ic.1 0 : ℤ) : ℚ)
        total := ((jsRound ((cats.map CatRow.views).getD ic.1 0) : ℤ) : ℚ) +
          ((jsRound ((cats.map CatRow.wish).getD ic.1 0) : ℤ) : ℚ) +
          (((kc.map fun k => ((k : ℕ) : ℤ)).getD ic.1 0 : ℤ) : ℚ) }) =
      cats := by
  have hlkc : kc.length = cats.length := by
    have h := congrArg List.length hkc
    simpa using h.symm
  have h1 : ∀ ic ∈ cats.enum,
      ({ ic.2 with
        views := ((jsRound ((cats.map CatRow.views).getD ic.1 0) : ℤ) : ℚ)
        wish := ((jsRound ((cats.map CatRow.wish).getD ic.1 0) : ℤ) : ℚ)
        carts := (((kc.map fun k => ((k : ℕ) : ℤ)).getD ic.1 0 : ℤ) : ℚ)
        total := ((jsRound ((cats.map CatRow.views).getD ic.1 0) : ℤ) : ℚ) +
          ((jsRound ((cats.map CatRow.wish).getD ic.1 0) : ℤ) : ℚ) +
          (((kc.map fun k => ((k : ℕ) : ℤ)).getD ic.1 0 : ℤ) : ℚ) } :
        CatRow) = Prod.snd ic := by
    intro ic hic
    have hm := List.mem_enum_iff_getElem?.mp hic
    have hi : ic.1 < cats.length := by
      by_contra hge
      rw [List.getElem?_eq_none (le_of_not_lt hge)] at hm
      exact Option.noConfusion hm
    rw [List.getElem?_eq_getElem hi] at hm
    have h2 : cats[ic.1] = ic.2 := Option.some.inj hm
    have hmem : ic.2 ∈ cats := by
      rw [← h2]
      exact List.getElem_mem hi
    have hgv : (cats.map CatRow.views).getD ic.1 0 = ic.2.views := by
      rw [List.getD_eq_getElem _ _ (by rw [List.length_map]; exact hi),
        List.getElem_map, h2]
    have hgw : (cats.map CatRow.wish).getD ic.1 0 = ic.2.wish := by
      rw [List.getD_eq_getElem _ _ (by rw [List.length_map]; exact hi),
        List.getElem_map, h2]
    obtain ⟨⟨kv, hkv⟩, ⟨kw, hkw⟩⟩ := hvw ic.2 hmem
    have hrv : ((jsRound ((cats.map CatRow.views).getD ic.1 0) : ℤ) : ℚ) =
        ic.2.views := by
      rw [hgv, hkv, jsRound_natCast, Int.cast_natCast]
    have hrw : ((jsRound ((cats.map CatRow.wish).getD ic.1 0) : ℤ) : ℚ) =
        ic.2.wish := by
      rw [hgw, hkw, jsRound_natCast, Int.cast_natCast]
    have hgc0 : (kc.map fun k => ((k : ℕ) : ℤ)).getD ic.1 0 =
        ((kc.getD ic.1 0 : ℕ) : ℤ) := List.getD_map kc 0 _
    have hgc : (((kc.map fun k => ((k : ℕ) : ℤ)).getD ic.1 0 : ℤ) : ℚ) =
        ic.2.carts := by
      rw [hgc0, Int.cast_natCast]
      have hc := congrArg (fun l => l.getD ic.1 (0 : ℚ)) hkc
      simp only at hc
      rw [List.getD_eq_getElem _ _ (by rw [List.length_map]; exact hi),
        List.getElem_map] at hc
      rw [List.getD_eq_getElem _ _
          (by rw [List.length_map, hlkc]; exact hi),
        List.getElem_map] at hc
      rw [h2] at hc
      rw [List.getD_eq_getElem _ _ (by rw [hlkc]; exact hi)]
      exact hc.symm
    rw [hrv, hrw, hgc, ← htot ic.2 hmem]
  rw [List.map_congr_left h1, List.enum_map_snd]

/-- C2 (amended): a full-range reprojection of an engine-shaped bundle is
NOT the identity: the self-loop flow links are always dropped, and two
further fields survive only conditionally.  The daily series is preserved
only when every daily bucket's date lies in the range (`hdaily`; daily
buckets carry event days, which can fall outside the session days the
range was chosen to cover), and the category interactions are preserved
only when the emitted rows' carts sum to the range's cart-add total
(`hcartsum`; the engine keeps only the top-20 category rows, so cart adds
in dropped rows break this).  Under those two conditions and the engine's
remaining output invariants, everything else — sessions, daily, leak,
category interactions, transitions, price arrays, price bands, bundle
supports, recos — is returned unchanged, while the links are exactly the
originals with self-loops filtered out.  The counterexample exhibits all
three failure modes on genuine engine bundles. -/
theorem claim_C2_full_range (data : AnalyticsResponse) (fromD toD : ℤ)
    (hne0 : data.sessions ≠ [])
    (hall : ∀ s ∈ data.sessions, sessionInRange fromD toD s = true)
    (hdaily : ∀ row ∈ data.daily.series,
      decide (fromD ≤ row.date ∧ row.date ≤ toD) = true)
    (hcounts : ∃ km : List (List ℕ), data.transitions.counts =
      km.map fun row => row.map fun k => ((k : ℕ) : ℚ))
    (hprobs : data.transitions.probs =
      data.transitions.counts.map normalizeRow)
    (hlinks : data.sankey.links = sankeyLinksAll data.transitions.counts)
    (hadds : ∃ ks : List ℕ, data.leak.items.map LeakItem.adds =
      ks.map fun k => ((k : ℕ) : ℚ))
    (hrems : ∃ ks : List ℕ, data.leak.items.map LeakItem.removes =
      ks.map fun k => ((k : ℕ) : ℚ))
    (haddsum : (data.leak.items.map LeakItem.adds).sum =
      rpTotalAdds data fromD toD)
    (hremsum : (data.leak.items.map LeakItem.removes).sum =
      rpTotalRemoves data fromD toD)
    (hleakrow : ∀ it ∈ data.leak.items,
      it.leak = if 0 < it.adds then it.removes / it.adds else 0)
    (hoverall : data.leak.overall =
      if 0 < rpTotalAdds data fromD toD then
        rpTotalRemoves data fromD toD / rpTotalAdds data fromD toD
      else 0)
    (hlsorted : List.Sorted leakGe data.leak.items)
    (hcarts : ∃ ks : List ℕ, data.categoryInteractions.map CatRow.carts =
      ks.map fun k => ((k : ℕ) : ℚ))
    (hcartsum : (data.categoryInteractions.map CatRow.carts).sum =
      rpTotalAdds data fromD toD)
    (hcatvw : ∀ c ∈ data.categoryInteractions,
      (∃ k : ℕ, c.views = ((k : ℕ) : ℚ)) ∧
      ∃ k : ℕ, c.wish = ((k : ℕ) : ℚ))
    (hcattot : ∀ c ∈ data.categoryInteractions,
      c.total = c.views + c.wish + c.carts)
    (hcsorted : List.Sorted catGe data.categoryInteractions)
    (hbands : ∀ b ∈ data.priceBands.bands,
      (∃ k : ℕ, b.nView = ((k : ℕ) : ℚ)) ∧
      ∃ k : ℕ, b.nWish = ((k : ℕ) : ℚ)) :
    ∃ r, reprojectForDateRange data fromD toD = some r ∧
      r.sessions = data.sessions ∧
      r.daily = data.daily ∧
      r.leak = data.leak ∧
      r.categoryInteractions = data.categoryInteractions ∧
      r.transitions = data.transitions ∧
      r.priceRangeData = data.priceRangeData ∧
      r.priceBands = data.priceBands ∧
      r.frequentBundles = data.frequentBundles ∧
      r.recos = data.recos ∧
      r.sankey.nodes = data.sankey.nodes ∧
      r.sankey.links =
        data.sankey.links.filter fun l => decide (l.source ≠ l.target) := by
  have hfil : rpFiltered data fromD toD = data.sessions := by
    rw [rpFiltered]
    exact List.filter_eq_self.mpr hall
  have hne : rpFiltered data fromD toD ≠ [] := by
    rw [hfil]
    exact hne0
  have hlen0 : ((data.sessions.length : ℕ) : ℚ) ≠ 0 := by
    have hp := List.length_pos.mpr hne0
    exact Nat.cast_ne_zero.mpr (Nat.pos_iff_ne_zero.mp hp)
  have hscale : rpScale data fromD toD = 1 := by
    rw [rpScale, hfil, div_self hlen0, jsClamp]
    norm_num
  obtain ⟨ks, hks⟩ := hadds
  obtain ⟨kr, hkr⟩ := hrems
  obtain ⟨kc, hkc⟩ := hcarts
  obtain ⟨km, hkm⟩ := hcounts
  have htotA : rpTotalAdds data fromD toD = ((ks.sum : ℕ) : ℚ) := by
    rw [← haddsum, hks]
    exact (Nat.cast_list_sum ks).symm
  have htotR : rpTotalRemoves data fromD toD = ((kr.sum : ℕ) : ℚ) := by
    rw [← hremsum, hkr]
    exact (Nat.cast_list_sum kr).symm
  have htotC : rpTotalAdds data fromD toD = ((kc.sum : ℕ) : ℚ) := by
    rw [← hcartsum, hkc]
    exact (Nat.cast_list_sum kc).symm
  have hA : distributeToTotal (rpTotalAdds data fromD toD)
      (data.leak.items.map LeakItem.adds) =
      some (ks.map fun k => ((k : ℕ) : ℤ)) := by
    rw [htotA, hks]
    exact dtt_exact ks
  have hB : distributeToTotal (rpTotalRemoves data fromD toD)
      (data.leak.items.map LeakItem.removes) =
      some (kr.map fun k => ((k : ℕ) : ℤ)) := by
    rw [htotR, hkr]
    exact dtt_exact kr
  have hC : distributeToTotal (rpTotalAdds data fromD toD)
      (data.categoryInteractions.map CatRow.carts) =
      some (kc.map fun k => ((k : ℕ) : ℤ)) := by
    rw [htotC, hkc]
    exact dtt_exact kc
  refine ⟨reprojectWith data fromD toD (ks.map fun k => ((k : ℕ) : ℤ))
    (kr.map fun k => ((k : ℕ) : ℤ)) (kc.map fun k => ((k : ℕ) : ℤ)),
    (reproject_some_iff data fromD toD hne _).mpr
      ⟨_, _, _, hA, hB, hC, rfl⟩, ?_, ?_, ?_, ?_, ?_, ?_, ?_, ?_, ?_, ?_, ?_⟩
  · show rpFiltered data fromD toD = data.sessions
    exact hfil
  · show ({ data.daily with
      series := (data.daily.series.filter
        (fun r => decide (fromD ≤ r.date ∧ r.date ≤ toD))) } : Daily) =
      data.daily
    rw [List.filter_eq_self.mpr hdaily]
  · show (⟨if 0 < rpTotalAdds data fromD toD then
        rpTotalRemoves data fromD toD / rpTotalAdds data fromD toD
      else 0,
      List.insertionSort leakGe (data.leak.items.enum.map fun ir =>
        ({ item := ir.2.item
           adds := (((ks.map fun k => ((k : ℕ) : ℤ)).getD ir.1 0 : ℤ) : ℚ)
           removes :=
             (((kr.map fun k => ((k : ℕ) : ℤ)).getD ir.1 0 : ℤ) : ℚ)
           leak := if 0 <
               (((ks.map fun k => ((k : ℕ) : ℤ)).getD ir.1 0 : ℤ) : ℚ) then
               (((kr.map fun k => ((k : ℕ) : ℤ)).getD ir.1 0 : ℤ) : ℚ) /
                 (((ks.map fun k => ((k : ℕ) : ℤ)).getD ir.1 0 : ℤ) : ℚ)
             else 0 } : LeakItem))⟩ : LeakOut) = data.leak
    rw [enum_map_rebuild_leak data.leak.items ks kr hks hkr hleakrow,
      hlsorted.insertionSort_eq, ← hoverall]
  · show List.insertionSort catGe (data.categoryInteractions.enum.map
        fun ic =>
        { ic.2 with
          views := ((jsRound ((data.categoryInteractions.map
            CatRow.views).getD ic.1 0 * rpScale data fromD toD) : ℤ) : ℚ)
          wish := ((jsRound ((data.categoryInteractions.map
            CatRow.wish).getD ic.1 0 * rpScale data fromD toD) : ℤ) : ℚ)
          carts := (((kc.map fun k => ((k : ℕ) : ℤ)).getD ic.1 0 : ℤ) : ℚ)
          total := ((jsRound ((data.categoryInteractions.map
            CatRow.views).getD ic.1 0 * rpScale data fromD toD) : ℤ) : ℚ) +
            ((jsRound ((data.categoryInteractions.map
              CatRow.wish).getD ic.1 0 * rpScale data fromD toD) : ℤ) : ℚ) +
            (((kc.map fun k => ((k : ℕ) : ℤ)).getD ic.1 0 : ℤ) : ℚ) }) =
      data.categoryInteractions
    rw [hscale]
    simp only [mul_one]
    rw [enum_map_rebuild_cat data.categoryInteractions kc hkc hcatvw hcattot,
      hcsorted.insertionSort_eq]
  · show (⟨data.transitions.states,
      data.transitions.counts.map fun row => row.map fun c =>
        ((jsRound (c * rpScale data fromD toD) : ℤ) : ℚ),
      (data.transitions.counts.map fun row => row.map fun c =>
        ((jsRound (c * rpScale data fromD toD) : ℤ) : ℚ)).map
        normalizeRow⟩ : Transitions) = data.transitions
    have hsc : data.transitions.counts.map (fun row => row.map fun c =>
        ((jsRound (c * rpScale data fromD toD) : ℤ) : ℚ)) =
        data.transitions.counts := by
      rw [hscale]
      simp only [mul_one]
      rw [hkm, List.map_map]
      apply List.map_congr_left
      intro row _
      simp only [Function.comp_apply, List.map_map]
      apply List.map_congr_left
      intro k _
      simp only [Function.comp_apply]
      rw [jsRound_natCast, Int.cast_natCast]
    rw [hsc, ← hprobs]
  · show (⟨scaleArray (rpScale data fromD toD)
        data.priceRangeData.viewFromPrices,
      scaleArray (rpScale data fromD toD)
        data.priceRangeData.viewToCartFromPrices,
      scaleArray (rpScale data fromD toD)
        data.priceRangeData.cartAddPrices,
      scaleArray (rpScale data fromD toD)
        data.priceRangeData.cartRemovePrices⟩ : PriceRangeData) =
      data.priceRangeData
    rw [hscale, scaleArray_one, scaleArray_one, scaleArray_one,
      scaleArray_one]
  · show (⟨data.priceBands.bands.map fun b =>
      { b with
        nView := ((jsRound (b.nView * rpScale data fromD toD) : ℤ) : ℚ)
        nWish := ((jsRound (b.nWish * rpScale data fromD toD) : ℤ) : ℚ) }⟩ :
      PriceBands) = data.priceBands
    rw [hscale]
    simp only [mul_one]
    have hmap : data.priceBands.bands.map (fun b =>
        { b with
          nView := ((jsRound b.nView : ℤ) : ℚ)
          nWish := ((jsRound b.nWish : ℤ) : ℚ) }) =
        data.priceBands.bands := by
      refine (List.map_congr_left ?_).trans (List.map_id _)
      intro b hb
      obtain ⟨⟨kv, hkv⟩, ⟨kw, hkw⟩⟩ := hbands b hb
      rw [hkv, hkw, jsRound_natCast, jsRound_natCast, Int.cast_natCast,
        Int.cast_natCast, ← hkv, ← hkw]
      rfl
    rw [hmap]
  · show data.frequentBundles.map (fun b =>
      { b with support := b.support * rpScale data fromD toD }) =
      data.frequentBundles
    rw [hscale]
    have hmap : data.frequentBundles.map (fun b =>
        { b with support := b.support * 1 }) = data.frequentBundles := by
      refine (List.map_congr_left ?_).trans (List.map_id _)
      intro b _
      rw [mul_one]
      rfl
    exact hmap
  · rfl
  · rfl
  · show sankeyLinksNoSelf (data.transitions.counts.map fun row =>
        row.map fun c => ((jsRound (c * rpScale data fromD toD) : ℤ) : ℚ)) =
      data.sankey.links.filter fun l => decide (l.source ≠ l.target)
    have hsc : data.transitions.counts.map (fun row => row.map fun c =>
        ((jsRound (c * rpScale data fromD toD) : ℤ) : ℚ)) =
        data.transitions.counts := by
      rw [hscale]
      simp only [mul_one]
      rw [hkm, List.map_map]
      apply List.map_congr_left
      intro row _
      simp only [Function.comp_apply, List.map_map]
      apply List.map_congr_left
      intro k _
      simp only [Function.comp_apply]
      rw [jsRound_natCast, Int.cast_natCast]
    rw [hsc, sankeyNoSelf_eq_filter, ← hlinks]


def docC2 : TrackingDoc where
  _id := .str 100
  visitorId := some 7
  country := none
  createdAt := some 0
  viewItems :=
    [⟨.str 200, some 0, none, none, false⟩,
     ⟨.str 200, some 1000, none, none, false⟩]
  cartItems := []
  wishlistItems := []

/-- A document whose session is created on day `0` but whose one view
event is timestamped on day `1`: the engine's daily bucket falls outside
the session-covering range `[0, 0]`. -/
def docC2x : TrackingDoc where
  _id := .str 110
  visitorId := none
  country := none
  createdAt := some 0
  viewItems := [⟨.str 200, some 86400000, none, none, false⟩]
  cartItems := []
  wishlistItems := []

/-- Twenty-one listings with distinct `techType` fallback categories. -/
def listingsC2 : List ListingDoc :=
  (List.range 21).map fun i =>
    ⟨.str (700 + i), none, none, none, none, none, none, none,
     some (800 + i), none⟩

/-- A single-session document with one cart add in each of the 21
categories: the engine keeps only the top 20 category rows, so one cart
add lives in a dropped row. -/
def docC2y : TrackingDoc where
  _id := .str 111
  visitorId := none
  country := none
  createdAt := some 0
  viewItems := []
  cartItems := (List.range 21).map fun i =>
    ⟨.str (700 + i), some 0, none, none, false⟩
  wishlistItems := []

/-- C2 counterexample, three failure modes on genuine engine bundles
reprojected over a range covering all their sessions: (1) `docC2`'s
bundle has the self-loop flow link `view → view` and the reprojection
returns `[]` for the links; (2) `docC2x`'s daily series holds one bucket
on event-day `1` while its only session is on day `0`, and the
reprojection empties the series; (3) `docC2y`'s 21 one-cart categories
are sliced to 20 rows of `carts = 1`, and the reprojection redistributes
the full 21 cart adds over them, changing the first row to `2`. -/
theorem claim_C2_counterexample :
    ((computeAnalyticsFromDocs ratPrims [] [docC2] [] []).sankey.links =
      [⟨2, 2, 1⟩] ∧
    (computeAnalyticsFromDocs ratPrims [] [docC2] [] []).sessions.map
      (fun s => msDay s.ts) = [0] ∧
    (reprojectForDateRange
        (computeAnalyticsFromDocs ratPrims [] [docC2] [] []) 0 0).map
      (fun r => r.sankey.links) = some []) ∧
    ((computeAnalyticsFromDocs ratPrims [] [docC2x] [] []).sessions.map
      (fun s => msDay s.ts) = [0] ∧
    (computeAnalyticsFromDocs ratPrims [] [docC2x] [] []).daily.series =
      [⟨1, 1, 0⟩] ∧
    (reprojectForDateRange
        (computeAnalyticsFromDocs ratPrims [] [docC2x] [] []) 0 0).map
      (fun r => r.daily.series) = some []) ∧
    ((computeAnalyticsFromDocs ratPrims []
        [docC2y] listingsC2 []).sessions.map (fun s => msDay s.ts) = [0] ∧
    (computeAnalyticsFromDocs ratPrims []
        [docC2y] listingsC2 []).categoryInteractions.map CatRow.carts =
      List.replicate 20 1 ∧
    (reprojectForDateRange
        (computeAnalyticsFromDocs ratPrims [] [docC2y] listingsC2 [])
        0 0).map (fun r => r.categoryInteractions.map CatRow.carts) =
      some (2 :: List.replicate 19 1)) := by
  refine ⟨⟨by decide, by decide, by decide⟩,
    ⟨by decide, by decide, by decide⟩, ⟨by decide, by decide, by decide⟩⟩

/-- Witness for C2 at a concrete input: the engine bundle of `docC2`
reprojected over its own single day. -/
theorem claim_C2_witness :
    ∃ r, reprojectForDateRange
        (computeAnalyticsFromDocs ratPrims [] [docC2] [] []) 0 0 = some r ∧
      r.sessions = (computeAnalyticsFromDocs ratPrims [] [docC2] [] []).sessions ∧
      r.daily = (computeAnalyticsFromDocs ratPrims [] [docC2] [] []).daily ∧
      r.leak = (computeAnalyticsFromDocs ratPrims [] [docC2] [] []).leak ∧
      r.categoryInteractions =
        (computeAnalyticsFromDocs ratPrims [] [docC2] [] []).categoryInteractions ∧
      r.transitions =
        (computeAnalyticsFromDocs ratPrims [] [docC2] [] []).transitions ∧
      r.priceRangeData =
        (computeAnalyticsFromDocs ratPrims [] [docC2] [] []).priceRangeData ∧
      r.priceBands =
        (computeAnalyticsFromDocs ratPrims [] [docC2] [] []).priceBands ∧
      r.frequentBundles =
        (computeAnalyticsFromDocs ratPrims [] [docC2] [] []).frequentBundles ∧
      r.recos = (computeAnalyticsFromDocs ratPrims [] [docC2] [] []).recos ∧
      r.sankey.nodes =
        (computeAnalyticsFromDocs ratPrims [] [docC2] [] []).sankey.nodes ∧
      r.sankey.links =
        (computeAnalyticsFromDocs ratPrims [] [docC2] [] []).sankey.links.filter
          fun l => decide (l.source ≠ l.target) := by
  apply claim_C2_full_range
  · decide
  · decide
  · decide
  · exact ⟨[[0, 0, 0, 0, 0], [0, 0, 0, 0, 0], [0, 0, 1, 0, 0],
      [0, 0, 0, 0, 0], [0, 0, 0, 0, 0]], by decide⟩
  · decide
  · decide
  · exact ⟨[], by decide⟩
  · exact ⟨[], by decide⟩
  · decide
  · decide
  · decide
  · decide
  · rw [show (computeAnalyticsFromDocs ratPrims [] [docC2] [] []).leak.items
      = [] from by decide]
    exact List.sorted_nil
  · exact ⟨[0], by decide⟩
  · decide
  · intro c hc
    rw [show (computeAnalyticsFromDocs ratPrims []
        [docC2] [] []).categoryInteractions =
      [(⟨3, 2, 0, 0, 2⟩ : CatRow)] from by decide] at hc
    rw [List.mem_singleton.mp hc]
    exact ⟨⟨2, by norm_num⟩, ⟨0, by norm_num⟩⟩
  · decide
  · rw [show (computeAnalyticsFromDocs ratPrims []
        [docC2] [] []).categoryInteractions =
      [(⟨3, 2, 0, 0, 2⟩ : CatRow)] from by decide]
    exact List.sorted_singleton _
  · intro b hb
    rw [show (computeAnalyticsFromDocs ratPrims []
        [docC2] [] []).priceBands.bands =
      [(⟨.All, 0, 0, 0, 0, 0, 0⟩ : Band)] from by decide] at hb
    rw [List.mem_singleton.mp hb]
    exact ⟨⟨0, by norm_num⟩, ⟨0, by norm_num⟩⟩

end BMR
